import Mathlib

/-!
# The scope-hoisting visitor of `src/visitors/hoist.js`

A shallow embedding of the Babel visitor object exported by `hoist.js`: the syntax tree, the
lexical scopes the traversal engine hands to each visitor, the visitors themselves, and the
pre-order walk that applies them.  Visitors that call `path.replaceWith` return the node they
hand to it; the walk checks the node against the position as Babel does (the call throws when
the position does not take it) and leaves a replaced node as it is (theorem `requeue_fixed`
below shows that visiting the replacement again changes nothing).
-/

namespace Hoist

/-! ## Data model -/

/-- Syntax tree nodes: the Babel node kinds the visitor meets.  A node that opens a lexical
scope (`FunctionExpression`, `FunctionDeclaration`, a `BlockStatement` that is not a function
body) records in `bindings` the names Babel registers in that scope.  A function body is given
as its statement list. -/
inductive Node where
  | Identifier (name : String)
  | StringLiteral (value : String)
  | NumericLiteral (value : Nat)
  | NullLiteral
  | ThisExpression
  | ObjectProperty (key : String) (value : Node)
  | ObjectExpression (properties : List Node)
  | MemberExpression (object property : Node) (computed : Bool)
  | CallExpression (callee : Node) (arguments : List Node)
  | UnaryExpression (operator : String) (argument : Node)
  | AssignmentExpression (operator : String) (left right : Node)
  | FunctionExpression (id : Option String) (params : List String) (bindings : List String)
      (body : List Node)
  | ExpressionStatement (expression : Node)
  | ReturnStatement (argument : Option Node)
  | VariableDeclarator (id : Node) (init : Option Node)
  | VariableDeclaration (kind : String) (declarations : List Node)
  | FunctionDeclaration (id : String) (params : List String) (bindings : List String)
      (body : List Node)
  | BlockStatement (bindings : List String) (body : List Node)
  | IfStatement (test consequent : Node) (alternate : Option Node)

/-- The root of a module's tree: the names bound in the top-level scope and the top-level
statement list. -/
structure Program where
  bindings : List String
  body : List Node

/-- The kind of node a scope belongs to. -/
inductive BlockType where
  | Program
  | Function
  | Block
  deriving DecidableEq

/-- A lexical scope: the node kind it belongs to, its own bindings, the `shouldWrap` entry of
its key/value side store (`none` while unset), and its parent scope. -/
inductive Scope where
  | mk (block : BlockType) (bindings : List String) (data : Option Bool) (parent : Option Scope)

/-- The asset being processed: `asset.id`, `asset.dependencies`, `asset.isAstDirty`. -/
structure Asset where
  id : Nat
  dependencies : List String
  isAstDirty : Bool

/-- A traversal path: the node it points at and the scope the node lives in. -/
structure Path where
  node : Node
  scope : Scope

/-- The path of the program node. -/
structure ProgramPath where
  node : Program
  scope : Scope

/-! ## Scopes -/

/-- Projection `scope.block`. -/
def Scope.block : Scope → BlockType
  | .mk b _ _ _ => b

/-- Projection `scope.bindings` (the bound names). -/
def Scope.bindings : Scope → List String
  | .mk _ bs _ _ => bs

/-- Projection `scope.parent`. -/
def Scope.parent : Scope → Option Scope
  | .mk _ _ _ p => p

/-- Babel's `Scope.globals` (the built-in names of the `globals` package) together with
`Scope.contextVariables`; `hasBinding` answers `true` for them unless `noGlobals` is passed. -/
def Scope.globals : List String :=
  ["Array", "ArrayBuffer", "Boolean", "constructor", "DataView", "Date", "decodeURI",
   "decodeURIComponent", "encodeURI", "encodeURIComponent", "Error", "escape", "eval",
   "EvalError", "Float32Array", "Float64Array", "Function", "hasOwnProperty", "Infinity",
   "Int16Array", "Int32Array", "Int8Array", "isFinite", "isNaN", "isPrototypeOf", "JSON", "Map",
   "Math", "NaN", "Number", "Object", "parseFloat", "parseInt", "Promise",
   "propertyIsEnumerable", "Proxy", "RangeError", "ReferenceError", "Reflect", "RegExp", "Set",
   "String", "Symbol", "SyntaxError", "System", "toLocaleString", "toString", "TypeError",
   "Uint16Array", "Uint32Array", "Uint8Array", "Uint8ClampedArray", "undefined", "unescape",
   "URIError", "valueOf", "WeakMap", "WeakSet", "arguments"]

/-- The part of `scope.hasBinding` that walks the scope chain: an own binding here or in an
ancestor. -/
def Scope.hasLocalBinding : Scope → String → Bool
  | .mk _ bs _ none, name => bs.contains name
  | .mk _ bs _ (some p), name => bs.contains name || p.hasLocalBinding name

/-- Babel's `scope.hasBinding(name, noGlobals)`: a binding of `name` in this scope or an
enclosing one, or, unless `noGlobals`, a built-in global of that name. -/
def Scope.hasBinding (scope : Scope) (name : String) (noGlobals : Bool) : Bool :=
  scope.hasLocalBinding name || (!noGlobals && Scope.globals.contains name)

/-- Babel's `scope.getData('shouldWrap')`: the first entry found walking up from this scope. -/
def Scope.getData : Scope → Option Bool
  | .mk _ _ (some d) _ => some d
  | .mk _ _ none none => none
  | .mk _ _ none (some p) => p.getData

/-- Babel's `scope.setData('shouldWrap', value)`. -/
def Scope.setData : Scope → Bool → Scope
  | .mk b bs _ p, value => .mk b bs (some value) p

/-- JavaScript truthiness of what `getData` returns (`undefined` is falsy). -/
def truthy : Option Bool → Bool
  | some b => b
  | none => false

/-- The nearest scope, from this one upwards, that belongs to a function or to the program. -/
def Scope.getFunctionParent : Scope → Scope
  | .mk .Block bs d none => .mk .Block bs d none
  | .mk .Block _ _ (some p) => p.getFunctionParent
  | .mk .Function bs d p => .mk .Function bs d p
  | .mk .Program bs d p => .mk .Program bs d p

/-- Babel's `path.getFunctionParent()`, for a path that is not itself a function: the nearest
enclosing function or program is the block of the nearest such scope. -/
def Path.getFunctionParent (path : Path) : Scope :=
  path.scope.getFunctionParent

/-- Whether a scope is the program's (`isProgram()` of the node it belongs to). -/
def Scope.isProgram (scope : Scope) : Bool :=
  scope.block = .Program

/-- The scope with its bindings replaced. -/
def Scope.withBindings : Scope → List String → Scope
  | .mk b _ d p, bindings => .mk b bindings d p

/-- The scope Babel creates for a scopable node found inside `parent`. -/
def Scope.child (parent : Scope) (block : BlockType) (bindings : List String) : Scope :=
  .mk block bindings none (some parent)

/-! ## Helpers from `babel-types` and `./matches-pattern` -/

/-- The test `t.isIdentifier(node) && node.name === name`. -/
def isIdentifierNamed : Node → String → Bool
  | .Identifier n, name => n = name
  | _, _ => false

/-- The argument list is exactly one string literal
(`args.length === 1 && t.isStringLiteral(args[0])`); gives `args[0].value`. -/
def singleStringLiteral : List Node → Option String
  | [.StringLiteral value] => some value
  | _ => none

/-- The `nodes` array built by `matchesPattern`: the properties of a member chain, outermost
first, followed by the root object. -/
def memberChain : Node → List Node
  | .MemberExpression object property _ => property :: memberChain object
  | node => [node]

/-- The name a chain element contributes: an identifier's name or a string literal's value. -/
def partName : Node → Option String
  | .Identifier name => some name
  | .StringLiteral value => some value
  | _ => none

/-- Modelled from the spec: `matchesPattern` of `./matches-pattern`, which is not among the
source files.  A member access matches when it is a member expression whose chain, read from the
root object outwards, consists of exactly the given parts, each an identifier of that name or a
string literal of that value (the helper is the one of babel-types, which does not look at
`computed`).  The dotted pattern string is given already split at the dots. -/
def matchesPattern (member : Node) (parts : List String) : Bool :=
  match member with
  | .MemberExpression _ _ _ => (memberChain member).reverse.map partName == parts.map some
  | _ => false

/-- The character class `[a-zA-Z0-9$_]`. -/
def isWordChar (c : Char) : Bool :=
  c.isAlphanum || c == '$' || c == '_'

/-- The replacement `/[-\s]+(.)?/g` of `toIdentifier`: a run of dashes disappears and the
character after it, if any, is upper-cased.  `pending` says a run of dashes has just been read.
(After the first step of `toIdentifier` no white space is left, so only `-` can match.) -/
def camelCase : Bool → List Char → List Char
  | _, [] => []
  | pending, c :: cs =>
    if c == '-' then camelCase true cs
    else (if pending then c.toUpper else c) :: camelCase false cs

/-- The reserved words `t.isValidIdentifier` rejects (ES6 keywords, strict-mode reserved words,
`null`, `true`, `false`, and `await`). -/
def reservedWords : List String :=
  ["if", "in", "do", "var", "for", "new", "try", "this", "else", "case", "void", "with", "enum",
   "while", "break", "catch", "throw", "const", "yield", "class", "super", "return", "typeof",
   "delete", "switch", "export", "import", "default", "finally", "extends", "function",
   "continue", "debugger", "instanceof", "implements", "interface", "package", "private",
   "protected", "public", "static", "let", "null", "true", "false", "await"]

/-- The test `t.isValidIdentifier` on a string over `[a-zA-Z0-9$_]`: not reserved, not empty,
and not starting with a digit. -/
def isValidIdentifier (name : List Char) : Bool :=
  !reservedWords.contains (String.mk name) &&
    match name with
    | [] => false
    | c :: cs => isWordChar c && !c.isDigit && cs.all isWordChar

/-- The library function `t.toIdentifier` of babel-types (Babel 6), which the source calls to
sanitize a specifier; it is no part of this repository, and the definition follows the library
function step by step: every character outside `[a-zA-Z0-9$_]` becomes a dash
(`/[^a-zA-Z0-9$_]/g`); leading dashes and digits are removed (`/^[-0-9]+/`); each run of dashes
is dropped and the character after it upper-cased; a result that is not a valid identifier gets
`_` in front; an empty result is `_`.  (The library works on UTF-16 code units, the definition
on characters; a character outside the class gives one dash here and one or two there, and runs
of dashes are dropped whole.) -/
def toIdentifier (name : String) : String :=
  let name := name.data.map (fun c => if isWordChar c then c else '-')
  let name := name.dropWhile (fun c => c == '-' || c.isDigit)
  let name := camelCase false name
  let name := if isValidIdentifier name then name else '_' :: name
  if name.isEmpty then "_" else String.mk name

/-! ## Naming scheme and templates -/

/-- The function `getExportsIdentifier(asset)`. -/
def getExportsIdentifier (asset : Asset) : Node :=
  .Identifier ("$" ++ toString asset.id ++ "$exports")

/-- The template `EXPORTS_TEMPLATE` applied to `NAME`: the statement
`var NAME = {}`. -/
def EXPORTS_TEMPLATE (NAME : Node) : Node :=
  .VariableDeclaration "var" [.VariableDeclarator NAME (some (.ObjectExpression []))]

/-- The template `WRAPPER_TEMPLATE` applied to `NAME` and `BODY`: the statement
`var NAME = (function () { var exports = this; var module = {exports: this}; BODY;
return module.exports; }).call({});`.  `bindings` is the scope annotation of the new function:
`exports`, `module` and whatever `BODY` declares. -/
def WRAPPER_TEMPLATE (NAME : Node) (BODY : List Node) (bindings : List String) : Node :=
  .VariableDeclaration "var" [.VariableDeclarator NAME (some
    (.CallExpression
      (.MemberExpression
        (.FunctionExpression none [] bindings
          ([.VariableDeclaration "var" [.VariableDeclarator (.Identifier "exports")
              (some .ThisExpression)],
            .VariableDeclaration "var" [.VariableDeclarator (.Identifier "module")
              (some (.ObjectExpression [.ObjectProperty "exports" .ThisExpression]))]]
            ++ BODY ++
            [.ReturnStatement (some
              (.MemberExpression (.Identifier "module") (.Identifier "exports") false))]))
        (.Identifier "call") false)
      [.ObjectExpression []]))]

/-! ## The substitution visitors

Each visitor receives the path and the asset and returns the node it hands to
`path.replaceWith`, or `none` when it leaves the path alone. -/

/-- Visitor `MemberExpression(path, asset)`.  `node` follows `path.node` through the successive
`replaceWith` calls, as each `matchesPattern(path.node, ...)` reads the current node. -/
def MemberExpression (path : Path) (asset : Asset) : Option Node :=
  if path.scope.hasBinding "module" false || truthy path.scope.getData then none
  else
    let r : Option Node := none
    let r := if matchesPattern (r.getD path.node) ["module", "exports"]
      then some (getExportsIdentifier asset) else r
    let r := if matchesPattern (r.getD path.node) ["module", "id"]
      then some (.NumericLiteral asset.id) else r
    let r := if matchesPattern (r.getD path.node) ["module", "hot"]
      then some (.Identifier "null") else r
    let r := if matchesPattern (r.getD path.node) ["module", "bundle", "modules"]
      then some (.MemberExpression (.Identifier "require") (.Identifier "modules") false) else r
    r

/-- Visitor `ReferencedIdentifier(path, asset)`; the walk calls it on identifiers in a
referenced position only. -/
def ReferencedIdentifier (path : Path) (asset : Asset) : Option Node :=
  match path.node with
  | .Identifier name =>
    if name = "exports" && !path.scope.hasBinding "exports" false && !truthy path.scope.getData
    then some (getExportsIdentifier asset) else none
  | _ => none

/-- Visitor `ThisExpression(path, asset)`. -/
def ThisExpression (path : Path) (asset : Asset) : Option Node :=
  if path.scope.parent.isNone && !truthy path.scope.getData
  then some (getExportsIdentifier asset) else none

/-- Visitor `AssignmentExpression(path, asset)`: the result is the node handed to
`path.get('left').replaceWith`. -/
def AssignmentExpression (path : Path) (asset : Asset) : Option Node :=
  match path.node with
  | .AssignmentExpression _ left _ =>
    if isIdentifierNamed left "exports" && !path.scope.hasBinding "exports" false &&
      !truthy path.scope.getData
    then some (getExportsIdentifier asset) else none
  | _ => none

/-- Visitor `UnaryExpression(path)`. -/
def UnaryExpression (path : Path) : Option Node :=
  match path.node with
  | .UnaryExpression operator argument =>
    if operator = "typeof" && isIdentifierNamed argument "module" &&
      !path.scope.hasBinding "module" false && !truthy path.scope.getData
    then some (.StringLiteral "object") else none
  | _ => none

/-- Visitor `CallExpression(path, asset)`.  `callee` and `args` are read once from the node the
visitor is called with, so the `require.resolve` test still looks at the original call after a
`require` call has been replaced. -/
def CallExpression (path : Path) (asset : Asset) : Option Node :=
  match path.node with
  | .CallExpression callee args =>
    let isRequire := isIdentifierNamed callee "require" && (singleStringLiteral args).isSome &&
      !path.scope.hasBinding "require" false
    if isRequire && !asset.dependencies.contains ((singleStringLiteral args).getD "") then none
    else
      let r : Option Node :=
        if isRequire then
          some (.Identifier ("$" ++ toString asset.id ++ "$require$" ++
            toIdentifier ((singleStringLiteral args).getD "")))
        else none
      let isRequireResolve := matchesPattern callee ["require", "resolve"] &&
        (singleStringLiteral args).isSome && !path.scope.hasBinding "require" false
      if isRequireResolve then
        some (.Identifier ("$" ++ toString asset.id ++ "$require_resolve$" ++
          toIdentifier ((singleStringLiteral args).getD "")))
      else r
  | _ => none

/-! ## The walk -/

/-- The kinds of child position the visitors meet, after the validator Babel attaches to the
parent's field: `expression` for a field that takes an expression (also the elements of an
argument list), `lval` for `AssignmentExpression.left` and `VariableDeclarator.id`, `property`
for the property of a member access that is not computed (it must be an identifier).  The
nodes the visitors replace occur in these positions only: a statement position or a property
list holds a statement or an object property, kinds no visitor replaces, so the position plays
no part there and the walk passes `expression`. -/
inductive Slot where
  | expression
  | lval
  | property
  deriving DecidableEq

/-- Babel's `t.isExpression(node)`. -/
def isExpression : Node → Bool
  | .Identifier _ => true
  | .StringLiteral _ => true
  | .NumericLiteral _ => true
  | .NullLiteral => true
  | .ThisExpression => true
  | .ObjectExpression _ => true
  | .MemberExpression _ _ _ => true
  | .CallExpression _ _ => true
  | .UnaryExpression _ _ => true
  | .AssignmentExpression _ _ _ => true
  | .FunctionExpression _ _ _ _ => true
  | _ => false

/-- Babel's `t.isLVal(node)`: of the node kinds here, identifiers and member expressions. -/
def isLVal : Node → Bool
  | .Identifier _ => true
  | .MemberExpression _ _ _ => true
  | _ => false

/-- The check `t.validate(parent, key, node)` that `path.replaceWith(node)` runs: whether the
position takes the node. -/
def Slot.accepts : Slot → Node → Bool
  | .expression, node => isExpression node
  | .lval, node => isLVal node
  | .property, node => match node with
    | .Identifier _ => true
    | _ => false

/-- Babel's `t.isReferenced(node, parent)` for an identifier in the position: an assignment
target, a declared name and a property that is not computed are not referenced. -/
def Slot.referenced : Slot → Bool
  | .expression => true
  | .lval => false
  | .property => false

/-- Babel's `path.replaceWith(node)` for a path in the given position: the node is put in
place, or the call throws (`none`) when the position does not take a node of that kind. -/
def replaceWith (slot : Slot) (node : Node) : Option Node :=
  if slot.accepts node then some node else none

mutual
/-- One path of the traversal: the visitor for the node's kind runs first; a node it replaced
is left as put in place, otherwise the children are visited in order, each in the scope and
position it occupies.  The result is `none` when a `replaceWith` throws. -/
def visit (asset : Asset) (scope : Scope) (slot : Slot) : Node → Option Node
  | .Identifier name =>
    if slot.referenced then
      match ReferencedIdentifier ⟨.Identifier name, scope⟩ asset with
      | some node => replaceWith slot node
      | none => some (.Identifier name)
    else some (.Identifier name)
  | .StringLiteral value => some (.StringLiteral value)
  | .NumericLiteral value => some (.NumericLiteral value)
  | .NullLiteral => some .NullLiteral
  | .ThisExpression =>
    match ThisExpression ⟨.ThisExpression, scope⟩ asset with
    | some node => replaceWith slot node
    | none => some .ThisExpression
  | .ObjectProperty key value =>
    (visit asset scope .expression value).map (.ObjectProperty key)
  | .ObjectExpression properties =>
    (visitList asset scope properties).map .ObjectExpression
  | .MemberExpression object property computed =>
    match MemberExpression ⟨.MemberExpression object property computed, scope⟩ asset with
    | some node => replaceWith slot node
    | none =>
      (visit asset scope .expression object).bind fun object' =>
        (visit asset scope (if computed then .expression else .property) property).map
          fun property' => .MemberExpression object' property' computed
  | .CallExpression callee args =>
    match CallExpression ⟨.CallExpression callee args, scope⟩ asset with
    | some node => replaceWith slot node
    | none =>
      (visit asset scope .expression callee).bind fun callee' =>
        (visitList asset scope args).map fun args' => .CallExpression callee' args'
  | .UnaryExpression operator argument =>
    match UnaryExpression ⟨.UnaryExpression operator argument, scope⟩ with
    | some node => replaceWith slot node
    | none => (visit asset scope .expression argument).map (.UnaryExpression operator)
  | .AssignmentExpression operator left right =>
    match AssignmentExpression ⟨.AssignmentExpression operator left right, scope⟩ asset with
    | some node =>
      (replaceWith .lval node).bind fun left' =>
        (visit asset scope .expression right).map
          fun right' => .AssignmentExpression operator left' right'
    | none =>
      (visit asset scope .lval left).bind fun left' =>
        (visit asset scope .expression right).map
          fun right' => .AssignmentExpression operator left' right'
  | .FunctionExpression id params bindings body =>
    (visitList asset (scope.child .Function bindings) body).map
      (.FunctionExpression id params bindings)
  | .ExpressionStatement expression =>
    (visit asset scope .expression expression).map .ExpressionStatement
  | .ReturnStatement argument => (visitOption asset scope argument).map .ReturnStatement
  | .VariableDeclarator id init =>
    (visit asset scope .lval id).bind fun id' =>
      (visitOption asset scope init).map fun init' => .VariableDeclarator id' init'
  | .VariableDeclaration kind declarations =>
    (visitList asset scope declarations).map (.VariableDeclaration kind)
  | .FunctionDeclaration id params bindings body =>
    (visitList asset (scope.child .Function bindings) body).map
      (.FunctionDeclaration id params bindings)
  | .BlockStatement bindings body =>
    (visitList asset (scope.child .Block bindings) body).map (.BlockStatement bindings)
  | .IfStatement test consequent alternate =>
    (visit asset scope .expression test).bind fun test' =>
      (visit asset scope .expression consequent).bind fun consequent' =>
        (visitOption asset scope alternate).map
          fun alternate' => .IfStatement test' consequent' alternate'
/-- The walk over a list of sibling nodes. -/
def visitList (asset : Asset) (scope : Scope) : List Node → Option (List Node)
  | [] => some []
  | node :: nodes =>
    (visit asset scope .expression node).bind fun node' =>
      (visitList asset scope nodes).map fun nodes' => node' :: nodes'
/-- The walk over an optional child (`some none` for a child that is absent). -/
def visitOption (asset : Asset) (scope : Scope) : Option Node → Option (Option Node)
  | none => some none
  | some node => (visit asset scope .expression node).map some
end

/-! ## The analyzer (`Program.enter`) -/

/-- The state of the traversal started by `Program.enter`: the local `shouldWrap` and whether
`path.stop()` has been called. -/
structure EnterState where
  shouldWrap : Bool
  shouldStop : Bool

/-- The `CallExpression` visitor of the traversal inside `Program.enter`. -/
def enterCallExpression (path : Path) (st : EnterState) : EnterState :=
  match path.node with
  | .CallExpression callee _ =>
    if isIdentifierNamed callee "eval" && !path.scope.hasBinding "eval" true
    then { shouldWrap := true, shouldStop := true } else st
  | _ => st

/-- The `ReturnStatement` visitor of the traversal inside `Program.enter`. -/
def enterReturnStatement (path : Path) (st : EnterState) : EnterState :=
  if path.getFunctionParent.isProgram
  then { shouldWrap := true, shouldStop := true } else st

mutual
/-- The traversal `path.traverse(...)` of `Program.enter`: nodes are met in pre-order, each in
its scope; once `path.stop()` has been called no further visitor runs. -/
def scan (scope : Scope) : Node → EnterState → EnterState
  | .Identifier _, st => st
  | .StringLiteral _, st => st
  | .NumericLiteral _, st => st
  | .NullLiteral, st => st
  | .ThisExpression, st => st
  | .ObjectProperty _ value, st => scan scope value st
  | .ObjectExpression properties, st => scanList scope properties st
  | .MemberExpression object property _, st => scan scope property (scan scope object st)
  | .CallExpression callee args, st =>
    if st.shouldStop then st
    else scanList scope args
      (scan scope callee (enterCallExpression ⟨.CallExpression callee args, scope⟩ st))
  | .UnaryExpression _ argument, st => scan scope argument st
  | .AssignmentExpression _ left right, st => scan scope right (scan scope left st)
  | .FunctionExpression _ _ bindings body, st => scanList (scope.child .Function bindings) body st
  | .ExpressionStatement expression, st => scan scope expression st
  | .ReturnStatement argument, st =>
    if st.shouldStop then st
    else scanOption scope argument (enterReturnStatement ⟨.ReturnStatement argument, scope⟩ st)
  | .VariableDeclarator id init, st => scanOption scope init (scan scope id st)
  | .VariableDeclaration _ declarations, st => scanList scope declarations st
  | .FunctionDeclaration _ _ bindings body, st =>
    scanList (scope.child .Function bindings) body st
  | .BlockStatement bindings body, st => scanList (scope.child .Block bindings) body st
  | .IfStatement test consequent alternate, st =>
    scanOption scope alternate (scan scope consequent (scan scope test st))
/-- The traversal over a list of sibling nodes. -/
def scanList (scope : Scope) : List Node → EnterState → EnterState
  | [], st => st
  | node :: nodes, st => scanList scope nodes (scan scope node st)
/-- The traversal over an optional child. -/
def scanOption (scope : Scope) : Option Node → EnterState → EnterState
  | none, st => st
  | some node, st => scan scope node st
end

/-- The scope of the program node of `ast` before the analyzer has run. -/
def programScope (ast : Program) : Scope :=
  .mk .Program ast.bindings none none

/-- The visitor `Program.enter(path)`: run the traversal, then
`path.scope.setData('shouldWrap', shouldWrap)`. -/
def Program.enter (path : ProgramPath) : ProgramPath :=
  let st := scanList path.scope path.node.body { shouldWrap := false, shouldStop := false }
  { path with scope := path.scope.setData st.shouldWrap }

/-! ### Every path of a tree, for stating what the tree contains -/

mutual
/-- All paths below and including a node, each with the scope of its position. -/
def paths (scope : Scope) : Node → List Path
  | .Identifier name => [⟨.Identifier name, scope⟩]
  | .StringLiteral value => [⟨.StringLiteral value, scope⟩]
  | .NumericLiteral value => [⟨.NumericLiteral value, scope⟩]
  | .NullLiteral => [⟨.NullLiteral, scope⟩]
  | .ThisExpression => [⟨.ThisExpression, scope⟩]
  | .ObjectProperty key value => ⟨.ObjectProperty key value, scope⟩ :: paths scope value
  | .ObjectExpression properties =>
    ⟨.ObjectExpression properties, scope⟩ :: pathsList scope properties
  | .MemberExpression object property computed =>
    ⟨.MemberExpression object property computed, scope⟩ ::
      (paths scope object ++ paths scope property)
  | .CallExpression callee args =>
    ⟨.CallExpression callee args, scope⟩ :: (paths scope callee ++ pathsList scope args)
  | .UnaryExpression operator argument =>
    ⟨.UnaryExpression operator argument, scope⟩ :: paths scope argument
  | .AssignmentExpression operator left right =>
    ⟨.AssignmentExpression operator left right, scope⟩ ::
      (paths scope left ++ paths scope right)
  | .FunctionExpression id params bindings body =>
    ⟨.FunctionExpression id params bindings body, scope.child .Function bindings⟩ ::
      pathsList (scope.child .Function bindings) body
  | .ExpressionStatement expression =>
    ⟨.ExpressionStatement expression, scope⟩ :: paths scope expression
  | .ReturnStatement argument =>
    ⟨.ReturnStatement argument, scope⟩ :: pathsOption scope argument
  | .VariableDeclarator id init =>
    ⟨.VariableDeclarator id init, scope⟩ :: (paths scope id ++ pathsOption scope init)
  | .VariableDeclaration kind declarations =>
    ⟨.VariableDeclaration kind declarations, scope⟩ :: pathsList scope declarations
  | .FunctionDeclaration id params bindings body =>
    ⟨.FunctionDeclaration id params bindings body, scope.child .Function bindings⟩ ::
      pathsList (scope.child .Function bindings) body
  | .BlockStatement bindings body =>
    ⟨.BlockStatement bindings body, scope.child .Block bindings⟩ ::
      pathsList (scope.child .Block bindings) body
  | .IfStatement test consequent alternate =>
    ⟨.IfStatement test consequent alternate, scope⟩ ::
      (paths scope test ++ paths scope consequent ++ pathsOption scope alternate)
/-- All paths of a list of sibling nodes. -/
def pathsList (scope : Scope) : List Node → List Path
  | [] => []
  | node :: nodes => paths scope node ++ pathsList scope nodes
/-- All paths of an optional child. -/
def pathsOption (scope : Scope) : Option Node → List Path
  | none => []
  | some node => paths scope node
end

/-- A call whose callee is the identifier `eval`, at a node where no binding named `eval` is
visible in any enclosing scope. -/
def isFreeEvalCall (path : Path) : Bool :=
  match path.node with
  | .CallExpression callee _ => isIdentifierNamed callee "eval" &&
      !path.scope.hasLocalBinding "eval"
  | _ => false

/-- A `return` statement whose nearest enclosing function boundary is the program. -/
def isTopLevelReturn (path : Path) : Bool :=
  match path.node with
  | .ReturnStatement _ => path.scope.getFunctionParent.block = .Program
  | _ => false

/-- The exhaustive search: some path of the module is a free `eval` call or a top-level
`return`. -/
def hasTrigger (ast : Program) : Bool :=
  (pathsList (programScope ast) ast.body).any (fun p => isFreeEvalCall p || isTopLevelReturn p)

/-! ## The renamer and the envelope (`Program.exit`) -/

mutual
/-- The tree part of Babel's `scope.rename(oldName, newName)` for a binding of the program
scope, following the renamer's visitor: referenced identifiers, assignment targets and declared
names equal to `oldName` get `newName`; a nested scope with its own binding of `oldName` is
skipped (a function declaration of that name still has its own name changed, being the
binding's identifier). -/
def rename (oldName newName : String) (referenced : Bool) : Node → Node
  | .Identifier name =>
    if referenced && name = oldName then .Identifier newName else .Identifier name
  | .StringLiteral value => .StringLiteral value
  | .NumericLiteral value => .NumericLiteral value
  | .NullLiteral => .NullLiteral
  | .ThisExpression => .ThisExpression
  | .ObjectProperty key value => .ObjectProperty key (rename oldName newName true value)
  | .ObjectExpression properties => .ObjectExpression (renameList oldName newName properties)
  | .MemberExpression object property computed =>
    .MemberExpression (rename oldName newName true object)
      (rename oldName newName computed property) computed
  | .CallExpression callee args =>
    .CallExpression (rename oldName newName true callee) (renameList oldName newName args)
  | .UnaryExpression operator argument =>
    .UnaryExpression operator (rename oldName newName true argument)
  | .AssignmentExpression operator left right =>
    .AssignmentExpression operator (rename oldName newName true left)
      (rename oldName newName true right)
  | .FunctionExpression id params bindings body =>
    if bindings.contains oldName then .FunctionExpression id params bindings body
    else .FunctionExpression id params bindings (renameList oldName newName body)
  | .ExpressionStatement expression =>
    .ExpressionStatement (rename oldName newName true expression)
  | .ReturnStatement argument => .ReturnStatement (renameOption oldName newName argument)
  | .VariableDeclarator id init =>
    .VariableDeclarator (rename oldName newName true id) (renameOption oldName newName init)
  | .VariableDeclaration kind declarations =>
    .VariableDeclaration kind (renameList oldName newName declarations)
  | .FunctionDeclaration id params bindings body =>
    .FunctionDeclaration (if id = oldName then newName else id) params bindings
      (if bindings.contains oldName then body else renameList oldName newName body)
  | .BlockStatement bindings body =>
    if bindings.contains oldName then .BlockStatement bindings body
    else .BlockStatement bindings (renameList oldName newName body)
  | .IfStatement test consequent alternate =>
    .IfStatement (rename oldName newName true test) (rename oldName newName true consequent)
      (renameOption oldName newName alternate)
/-- The renamer over a list of sibling nodes. -/
def renameList (oldName newName : String) : List Node → List Node
  | [] => []
  | node :: nodes => rename oldName newName true node :: renameList oldName newName nodes
/-- The renamer over an optional child. -/
def renameOption (oldName newName : String) : Option Node → Option Node
  | none => none
  | some node => some (rename oldName newName true node)
end

/-- Babel's `scope.rename(oldName, newName)` on the program scope: nothing happens when the
scope has no binding `oldName`; otherwise the tree is renamed and the binding is moved from
`oldName` to `newName` in `scope.bindings`. -/
def ProgramPath.rename (path : ProgramPath) (oldName newName : String) : ProgramPath :=
  if path.scope.bindings.contains oldName then
    let bindings :=
      (path.scope.bindings.filter (fun b => b ≠ oldName && b ≠ newName)) ++ [newName]
    { node := { bindings := bindings, body := renameList oldName newName path.node.body },
      scope := path.scope.withBindings bindings }
  else path

/-- The loop `for (let name in scope.bindings) scope.rename(name, '$' + asset.id + '$var$' +
name)`: the names are those present when the loop starts, in insertion order (names added
while the loop runs are not enumerated). -/
def renameBindings (path : ProgramPath) (asset : Asset) : ProgramPath :=
  path.scope.bindings.foldl
    (fun path name => path.rename name ("$" ++ toString asset.id ++ "$var$" ++ name)) path

/-- The name of an identifier node. -/
def identifierName : Node → String
  | .Identifier name => name
  | _ => ""

/-- The visitor `Program.exit(path, asset)`: wrap the body in the envelope when `shouldWrap` is set,
otherwise rename the top-level bindings and put the exports declaration first; then
`asset.isAstDirty = true`.  The scope of a replaced program is the one Babel builds for the
new node. -/
def Program.exit (path : ProgramPath) (asset : Asset) : ProgramPath × Asset :=
  let scope := path.scope
  let path :=
    if truthy scope.getData then
      let bindings := [identifierName (getExportsIdentifier asset)]
      { node :=
          { bindings := bindings
            body := [WRAPPER_TEMPLATE (getExportsIdentifier asset) path.node.body
              ("exports" :: "module" :: path.node.bindings)] }
        scope := .mk .Program bindings none none }
    else
      let path := renameBindings path asset
      { path with node :=
          { path.node with
            body := EXPORTS_TEMPLATE (getExportsIdentifier asset) :: path.node.body } }
  (path, { asset with isAstDirty := true })

/-- The substitution pass over the statements of a module; `none` when a `replaceWith`
throws. -/
def substitute (asset : Asset) (path : ProgramPath) : Option ProgramPath :=
  (visitList asset path.scope path.node.body).map
    fun body => { path with node := { path.node with body := body } }

/-- The whole visitor applied to a module by Babel's `traverse(ast, visitor, null, asset)`:
`Program.enter`, the substitution visitors over the tree, `Program.exit`; `none` when the
traversal throws. -/
def hoist (ast : Program) (asset : Asset) : Option (Program × Asset) :=
  (substitute asset (Program.enter { node := ast, scope := programScope ast })).map
    fun path => ((Program.exit path asset).1.node, (Program.exit path asset).2)

/-! ## Predicates on trees used to state the frame properties -/

mutual
/-- Whether the tree contains a call whose callee is the identifier `require` or the member
access `require.resolve`. -/
def containsRequireCall : Node → Bool
  | .Identifier _ => false
  | .StringLiteral _ => false
  | .NumericLiteral _ => false
  | .NullLiteral => false
  | .ThisExpression => false
  | .ObjectProperty _ value => containsRequireCall value
  | .ObjectExpression properties => containsRequireCallList properties
  | .MemberExpression object property _ =>
    containsRequireCall object || containsRequireCall property
  | .CallExpression callee args =>
    isIdentifierNamed callee "require" || matchesPattern callee ["require", "resolve"] ||
      containsRequireCall callee || containsRequireCallList args
  | .UnaryExpression _ argument => containsRequireCall argument
  | .AssignmentExpression _ left right => containsRequireCall left || containsRequireCall right
  | .FunctionExpression _ _ _ body => containsRequireCallList body
  | .ExpressionStatement expression => containsRequireCall expression
  | .ReturnStatement argument => containsRequireCallOption argument
  | .VariableDeclarator id init => containsRequireCall id || containsRequireCallOption init
  | .VariableDeclaration _ declarations => containsRequireCallList declarations
  | .FunctionDeclaration _ _ _ body => containsRequireCallList body
  | .BlockStatement _ body => containsRequireCallList body
  | .IfStatement test consequent alternate =>
    containsRequireCall test || containsRequireCall consequent ||
      containsRequireCallOption alternate
/-- Whether such a call occurs in a list of nodes. -/
def containsRequireCallList : List Node → Bool
  | [] => false
  | node :: nodes => containsRequireCall node || containsRequireCallList nodes
/-- Whether such a call occurs in an optional child. -/
def containsRequireCallOption : Option Node → Bool
  | none => false
  | some node => containsRequireCall node
end

/-! ## Shapes named in the properties -/

/-- The member access `object.property` (not computed). -/
def member (object : Node) (property : String) : Node :=
  .MemberExpression object (.Identifier property) false

/-- The call `require("specifier")`. -/
def requireCall (specifier : String) : Node :=
  .CallExpression (.Identifier "require") [.StringLiteral specifier]

/-- The call `require.resolve("specifier")`. -/
def requireResolveCall (specifier : String) : Node :=
  .CallExpression (member (.Identifier "require") "resolve") [.StringLiteral specifier]

/-- The expression `typeof module`. -/
def typeofModule : Node :=
  .UnaryExpression "typeof" (.Identifier "module")

/-! ## The naming scheme, by role -/

/-- The four kinds of names the visitor generates. -/
inductive Role where
  | exports
  | var
  | require
  | requireResolve
  deriving DecidableEq

/-- The name the source builds for an asset id and a role: `'$' + asset.id + '$exports'`
(`getExportsIdentifier`), `'$' + asset.id + '$var$' + name` (`Program.exit`),
`'$' + asset.id + '$require$' + t.toIdentifier(specifier)` and
`'$' + asset.id + '$require_resolve$' + t.toIdentifier(specifier)` (`CallExpression`). -/
def generatedName (id : Nat) : Role → String → String
  | .exports, _ => "$" ++ toString id ++ "$exports"
  | .var, name => "$" ++ toString id ++ "$var$" ++ name
  | .require, specifier => "$" ++ toString id ++ "$require$" ++ toIdentifier specifier
  | .requireResolve, specifier =>
    "$" ++ toString id ++ "$require_resolve$" ++ toIdentifier specifier

/-- A sequence of renames `(oldName, newName)` applied to one node, first pair first. -/
def renameAll (pairs : List (String × String)) (node : Node) : Node :=
  pairs.foldl (fun node pair => rename pair.1 pair.2 true node) node

/-! ## Trees on which a second pass finds nothing new -/

/-- The expression `typeof module`, as a test. -/
def isTypeofModule : Node → Bool
  | .UnaryExpression operator (.Identifier name) => operator = "typeof" && name = "module"
  | _ => false

/-- The argument list is exactly `typeof module`. -/
def singleTypeofModule : List Node → Bool
  | [argument] => isTypeofModule argument
  | _ => false

mutual
/-- No call expression of the tree has `typeof module` as its only argument. -/
def noTypeofModuleArgument : Node → Bool
  | .Identifier _ => true
  | .StringLiteral _ => true
  | .NumericLiteral _ => true
  | .NullLiteral => true
  | .ThisExpression => true
  | .ObjectProperty _ value => noTypeofModuleArgument value
  | .ObjectExpression properties => noTypeofModuleArgumentList properties
  | .MemberExpression object property _ =>
    noTypeofModuleArgument object && noTypeofModuleArgument property
  | .CallExpression callee args =>
    !singleTypeofModule args && noTypeofModuleArgument callee && noTypeofModuleArgumentList args
  | .UnaryExpression _ argument => noTypeofModuleArgument argument
  | .AssignmentExpression _ left right =>
    noTypeofModuleArgument left && noTypeofModuleArgument right
  | .FunctionExpression _ _ _ body => noTypeofModuleArgumentList body
  | .ExpressionStatement expression => noTypeofModuleArgument expression
  | .ReturnStatement argument => noTypeofModuleArgumentOption argument
  | .VariableDeclarator id init =>
    noTypeofModuleArgument id && noTypeofModuleArgumentOption init
  | .VariableDeclaration _ declarations => noTypeofModuleArgumentList declarations
  | .FunctionDeclaration _ _ _ body => noTypeofModuleArgumentList body
  | .BlockStatement _ body => noTypeofModuleArgumentList body
  | .IfStatement test consequent alternate =>
    noTypeofModuleArgument test && noTypeofModuleArgument consequent &&
      noTypeofModuleArgumentOption alternate
/-- The same for a list of nodes. -/
def noTypeofModuleArgumentList : List Node → Bool
  | [] => true
  | node :: nodes => noTypeofModuleArgument node && noTypeofModuleArgumentList nodes
/-- The same for an optional child. -/
def noTypeofModuleArgumentOption : Option Node → Bool
  | none => true
  | some node => noTypeofModuleArgument node
end

/-! ## The renaming of the top-level bindings, all at once -/

mutual
/-- The scope-aware renaming of the top-level bindings `top` of asset `id`, all at once:
an identifier (a reference, an assignment target or a declared name) called `x` becomes
`$id$var$x` when `x` is a top-level binding and no nested scope around the identifier binds
`x`; `shadowed` lists the names bound by the nested scopes around the node. -/
def renameTop (id : Nat) (top shadowed : List String) (referenced : Bool) : Node → Node
  | .Identifier name =>
    if referenced && top.contains name && !shadowed.contains name
    then .Identifier ("$" ++ toString id ++ "$var$" ++ name) else .Identifier name
  | .StringLiteral value => .StringLiteral value
  | .NumericLiteral value => .NumericLiteral value
  | .NullLiteral => .NullLiteral
  | .ThisExpression => .ThisExpression
  | .ObjectProperty key value => .ObjectProperty key (renameTop id top shadowed true value)
  | .ObjectExpression properties => .ObjectExpression (renameTopList id top shadowed properties)
  | .MemberExpression object property computed =>
    .MemberExpression (renameTop id top shadowed true object)
      (renameTop id top shadowed computed property) computed
  | .CallExpression callee args =>
    .CallExpression (renameTop id top shadowed true callee) (renameTopList id top shadowed args)
  | .UnaryExpression operator argument =>
    .UnaryExpression operator (renameTop id top shadowed true argument)
  | .AssignmentExpression operator left right =>
    .AssignmentExpression operator (renameTop id top shadowed true left)
      (renameTop id top shadowed true right)
  | .FunctionExpression fid params bindings body =>
    .FunctionExpression fid params bindings (renameTopList id top (bindings ++ shadowed) body)
  | .ExpressionStatement expression =>
    .ExpressionStatement (renameTop id top shadowed true expression)
  | .ReturnStatement argument => .ReturnStatement (renameTopOption id top shadowed argument)
  | .VariableDeclarator vid init =>
    .VariableDeclarator (renameTop id top shadowed true vid)
      (renameTopOption id top shadowed init)
  | .VariableDeclaration kind declarations =>
    .VariableDeclaration kind (renameTopList id top shadowed declarations)
  | .FunctionDeclaration fid params bindings body =>
    .FunctionDeclaration
      (if top.contains fid && !shadowed.contains fid
        then "$" ++ toString id ++ "$var$" ++ fid else fid)
      params bindings (renameTopList id top (bindings ++ shadowed) body)
  | .BlockStatement bindings body =>
    .BlockStatement bindings (renameTopList id top (bindings ++ shadowed) body)
  | .IfStatement test consequent alternate =>
    .IfStatement (renameTop id top shadowed true test) (renameTop id top shadowed true consequent)
      (renameTopOption id top shadowed alternate)
/-- The renaming over a list of sibling nodes. -/
def renameTopList (id : Nat) (top shadowed : List String) : List Node → List Node
  | [] => []
  | node :: nodes => renameTop id top shadowed true node :: renameTopList id top shadowed nodes
/-- The renaming over an optional child. -/
def renameTopOption (id : Nat) (top shadowed : List String) : Option Node → Option Node
  | none => none
  | some node => some (renameTop id top shadowed true node)
end

/-! # Properties -/

/-! ## Generated names -/

theorem data_dollar (x : String) : ("$" ++ x).data = '$' :: x.data := by
  simp [String.data_append]

theorem dollar_ne (x y : String) (h : y.data.head? ≠ some '$') : "$" ++ x ≠ y := by
  intro e
  apply h
  rw [← e, data_dollar]
  rfl

theorem exportsName_ne (n : Nat) (y : String) (h : y.data.head? ≠ some '$') :
    "$" ++ toString n ++ "$exports" ≠ y := by
  rw [String.append_assoc]
  exact dollar_ne _ _ h

/-! ## Scope data is inherited -/

theorem getData_child (scope : Scope) (block : BlockType) (bindings : List String) :
    (scope.child block bindings).getData = scope.getData := by
  simp [Scope.child, Scope.getData]

/-! ## Positions and `replaceWith` -/

theorem replaceWith_identifier (slot : Slot) (name : String) :
    replaceWith slot (.Identifier name) = some (.Identifier name) := by
  cases slot <;> rfl

theorem replaceWith_exportsIdentifier (slot : Slot) (asset : Asset) :
    replaceWith slot (getExportsIdentifier asset) = some (getExportsIdentifier asset) :=
  replaceWith_identifier slot _

theorem replaceWith_expression (node : Node) (h : isExpression node = true) :
    replaceWith .expression node = some node := by
  simp [replaceWith, Slot.accepts, h]

/-! ## A wrapped module: only calls are rewritten -/

mutual
theorem visit_wrapped (asset : Asset) : ∀ (node : Node) (scope : Scope) (slot : Slot),
    truthy scope.getData = true → containsRequireCall node = false →
    visit asset scope slot node = some node
  | .Identifier name, scope, slot, h, _ => by
    simp [visit, ReferencedIdentifier, h]
  | .StringLiteral _, _, _, _, _ => by simp [visit]
  | .NumericLiteral _, _, _, _, _ => by simp [visit]
  | .NullLiteral, _, _, _, _ => by simp [visit]
  | .ThisExpression, scope, _, h, _ => by simp [visit, ThisExpression, h]
  | .ObjectProperty _ value, scope, _, h, hc => by
    simp only [containsRequireCall] at hc
    simp [visit, visit_wrapped asset value scope .expression h hc]
  | .ObjectExpression properties, scope, _, h, hc => by
    simp only [containsRequireCall] at hc
    simp [visit, visitList_wrapped asset properties scope h hc]
  | .MemberExpression object property computed, scope, _, h, hc => by
    simp only [containsRequireCall, Bool.or_eq_false_iff] at hc
    simp [visit, MemberExpression, h, visit_wrapped asset object scope .expression h hc.1,
      visit_wrapped asset property scope (if computed then .expression else .property) h hc.2]
  | .CallExpression callee args, scope, _, h, hc => by
    simp only [containsRequireCall, Bool.or_eq_false_iff] at hc
    simp [visit, CallExpression, hc.1.1.1, hc.1.1.2,
      visit_wrapped asset callee scope .expression h hc.1.2,
      visitList_wrapped asset args scope h hc.2]
  | .UnaryExpression operator argument, scope, _, h, hc => by
    simp only [containsRequireCall] at hc
    simp [visit, UnaryExpression, h, visit_wrapped asset argument scope .expression h hc]
  | .AssignmentExpression operator left right, scope, _, h, hc => by
    simp only [containsRequireCall, Bool.or_eq_false_iff] at hc
    simp [visit, AssignmentExpression, h, visit_wrapped asset left scope .lval h hc.1,
      visit_wrapped asset right scope .expression h hc.2]
  | .FunctionExpression _ _ bindings body, scope, _, h, hc => by
    simp only [containsRequireCall] at hc
    simp [visit, visitList_wrapped asset body (scope.child .Function bindings)
      (by rw [getData_child]; exact h) hc]
  | .ExpressionStatement expression, scope, _, h, hc => by
    simp only [containsRequireCall] at hc
    simp [visit, visit_wrapped asset expression scope .expression h hc]
  | .ReturnStatement argument, scope, _, h, hc => by
    simp only [containsRequireCall] at hc
    simp [visit, visitOption_wrapped asset argument scope h hc]
  | .VariableDeclarator id init, scope, _, h, hc => by
    simp only [containsRequireCall, Bool.or_eq_false_iff] at hc
    simp [visit, visit_wrapped asset id scope .lval h hc.1,
      visitOption_wrapped asset init scope h hc.2]
  | .VariableDeclaration _ declarations, scope, _, h, hc => by
    simp only [containsRequireCall] at hc
    simp [visit, visitList_wrapped asset declarations scope h hc]
  | .FunctionDeclaration _ _ bindings body, scope, _, h, hc => by
    simp only [containsRequireCall] at hc
    simp [visit, visitList_wrapped asset body (scope.child .Function bindings)
      (by rw [getData_child]; exact h) hc]
  | .BlockStatement bindings body, scope, _, h, hc => by
    simp only [containsRequireCall] at hc
    simp [visit, visitList_wrapped asset body (scope.child .Block bindings)
      (by rw [getData_child]; exact h) hc]
  | .IfStatement test consequent alternate, scope, _, h, hc => by
    simp only [containsRequireCall, Bool.or_eq_false_iff] at hc
    simp [visit, visit_wrapped asset test scope .expression h hc.1.1,
      visit_wrapped asset consequent scope .expression h hc.1.2,
      visitOption_wrapped asset alternate scope h hc.2]
theorem visitList_wrapped (asset : Asset) : ∀ (nodes : List Node) (scope : Scope),
    truthy scope.getData = true → containsRequireCallList nodes = false →
    visitList asset scope nodes = some nodes
  | [], _, _, _ => by simp [visitList]
  | node :: nodes, scope, h, hc => by
    simp only [containsRequireCallList, Bool.or_eq_false_iff] at hc
    simp [visitList, visit_wrapped asset node scope .expression h hc.1,
      visitList_wrapped asset nodes scope h hc.2]
theorem visitOption_wrapped (asset : Asset) : ∀ (node : Option Node) (scope : Scope),
    truthy scope.getData = true → containsRequireCallOption node = false →
    visitOption asset scope node = some node
  | none, _, _, _ => by simp [visitOption]
  | some node, scope, h, hc => by
    simp only [containsRequireCallOption] at hc
    simp [visitOption, visit_wrapped asset node scope .expression h hc]
end

/-! ## Shadowed names -/

/-- C11: at a node where a binding named `module`, `exports` or `require` is visible, the
matching substitution is skipped: `module.exports`, `module.id`, `module.hot` and
`module.bundle.modules` stay as they are under a `module` binding; a bare `exports` reference
and an `exports` assignment target stay under an `exports` binding; `require("x")` and
`require.resolve("x")` stay under a `require` binding, whatever the dependency set. -/
theorem C11_shadowed_substitution_skipped (asset : Asset) (scope : Scope) (slot : Slot) :
    (scope.hasBinding "module" false = true →
      visit asset scope slot (member (.Identifier "module") "exports") =
        some (member (.Identifier "module") "exports") ∧
      visit asset scope slot (member (.Identifier "module") "id") =
        some (member (.Identifier "module") "id") ∧
      visit asset scope slot (member (.Identifier "module") "hot") =
        some (member (.Identifier "module") "hot") ∧
      visit asset scope slot (member (member (.Identifier "module") "bundle") "modules") =
        some (member (member (.Identifier "module") "bundle") "modules")) ∧
    (scope.hasBinding "exports" false = true →
      visit asset scope .expression (.Identifier "exports") = some (.Identifier "exports") ∧
      ∀ (operator : String) (right : Node),
        visit asset scope slot (.AssignmentExpression operator (.Identifier "exports") right) =
          (visit asset scope .expression right).map
            (.AssignmentExpression operator (.Identifier "exports"))) ∧
    (scope.hasBinding "require" false = true →
      ∀ x : String,
        visit asset scope slot (requireCall x) = some (requireCall x) ∧
        visit asset scope slot (requireResolveCall x) = some (requireResolveCall x)) := by
  refine ⟨fun h => ?_, fun h => ?_, fun h x => ?_⟩
  · simp [member, visit, MemberExpression, ReferencedIdentifier, Slot.referenced, h]
  · simp [visit, AssignmentExpression, ReferencedIdentifier, isIdentifierNamed,
      Slot.referenced, h]
  · simp [requireCall, requireResolveCall, member, visit, visitList, CallExpression,
      MemberExpression, ReferencedIdentifier, isIdentifierNamed, singleStringLiteral,
      matchesPattern, memberChain, partName, Slot.referenced, h]

theorem C11_shadowed_substitution_skipped_witness :
    (visit ⟨3, ["x"], false⟩ (.mk .Function ["module", "exports", "require"] none
        (some (.mk .Program [] (some false) none))) .expression
        (member (.Identifier "module") "exports") =
      some (member (.Identifier "module") "exports")) ∧
    (visit ⟨3, ["x"], false⟩ (.mk .Function ["module", "exports", "require"] none
        (some (.mk .Program [] (some false) none))) .expression
        (.Identifier "exports") = some (.Identifier "exports")) ∧
    (visit ⟨3, ["x"], false⟩ (.mk .Function ["module", "exports", "require"] none
        (some (.mk .Program [] (some false) none))) .expression
        (requireCall "x") = some (requireCall "x")) :=
  have h := C11_shadowed_substitution_skipped ⟨3, ["x"], false⟩
    (.mk .Function ["module", "exports", "require"] none
      (some (.mk .Program [] (some false) none))) .expression
  ⟨(h.1 (by decide)).1, (h.2.1 (by decide)).1, (h.2.2 (by decide) "x").1⟩

/-! ## A wrapped module -/

/-- C12: when the verdict is true, `module.exports`, `module.id`, `module.hot`,
`module.bundle.modules`, a bare `exports` reference or assignment target, `this` and
`typeof module` are left unchanged in every scope and position; the verdict is seen from every
nested scope, so this holds at every depth, and a tree without `require` or `require.resolve`
calls comes out of the pass unchanged. -/
theorem C12_wrapped_constructs_unchanged (asset : Asset) (scope : Scope) (slot : Slot)
    (h : truthy scope.getData = true) :
    visit asset scope slot (member (.Identifier "module") "exports") =
      some (member (.Identifier "module") "exports") ∧
    visit asset scope slot (member (.Identifier "module") "id") =
      some (member (.Identifier "module") "id") ∧
    visit asset scope slot (member (.Identifier "module") "hot") =
      some (member (.Identifier "module") "hot") ∧
    visit asset scope slot (member (member (.Identifier "module") "bundle") "modules") =
      some (member (member (.Identifier "module") "bundle") "modules") ∧
    visit asset scope slot (.Identifier "exports") = some (.Identifier "exports") ∧
    (∀ (operator : String) (right : Node),
      visit asset scope slot (.AssignmentExpression operator (.Identifier "exports") right) =
        (visit asset scope .expression right).map
          (.AssignmentExpression operator (.Identifier "exports"))) ∧
    visit asset scope slot .ThisExpression = some .ThisExpression ∧
    visit asset scope slot typeofModule = some typeofModule ∧
    (∀ (block : BlockType) (bindings : List String),
      truthy (scope.child block bindings).getData = true) ∧
    (∀ node : Node, containsRequireCall node = false →
      visit asset scope slot node = some node) := by
  refine ⟨?_, ?_, ?_, ?_, ?_, ?_, ?_, ?_, ?_, ?_⟩
  · simp [member, visit, MemberExpression, ReferencedIdentifier, Slot.referenced, h]
  · simp [member, visit, MemberExpression, ReferencedIdentifier, Slot.referenced, h]
  · simp [member, visit, MemberExpression, ReferencedIdentifier, Slot.referenced, h]
  · simp [member, visit, MemberExpression, ReferencedIdentifier, Slot.referenced, h]
  · simp [visit, ReferencedIdentifier, h]
  · intro operator right
    simp only [visit, AssignmentExpression, h, Slot.referenced]
    simp
  · simp [visit, ThisExpression, h]
  · simp [typeofModule, visit, UnaryExpression, ReferencedIdentifier, Slot.referenced, h]
  · intro block bindings
    rw [getData_child]
    exact h
  · intro node hc
    exact visit_wrapped asset node scope slot h hc

theorem C12_wrapped_constructs_unchanged_witness :
    visit ⟨3, [], false⟩ (.mk .Program [] (some true) none) .expression .ThisExpression =
      some .ThisExpression ∧
    visit ⟨3, [], false⟩ (.mk .Program [] (some true) none) .expression typeofModule =
      some typeofModule :=
  have h := C12_wrapped_constructs_unchanged ⟨3, [], false⟩ (.mk .Program [] (some true) none)
    .expression (by decide)
  ⟨h.2.2.2.2.2.2.1, h.2.2.2.2.2.2.2.1⟩

/-! ## `this` -/

/-- C13: the code at `if (x) { this; } this;` in a module with verdict false and id 3: the
`this` inside the block is in the block's scope, which has a parent, so `ThisExpression` leaves
it, while the `this` directly in the top-level statement list becomes `$3$exports`. -/
theorem C13_this_inside_block_kept :
    (hoist ⟨[], [.IfStatement (.Identifier "x")
        (.BlockStatement [] [.ExpressionStatement .ThisExpression]) none,
        .ExpressionStatement .ThisExpression]⟩ ⟨3, [], false⟩).map (fun r => r.1.body) =
      some [EXPORTS_TEMPLATE (.Identifier "$3$exports"),
        .IfStatement (.Identifier "x")
          (.BlockStatement [] [.ExpressionStatement .ThisExpression]) none,
        .ExpressionStatement (.Identifier "$3$exports")] := by
  rfl

/-! ## `require.resolve` -/

/-- C17: where no binding named `require` is visible, `require.resolve(s)` with one string
literal is replaced by the identifier `$` + id + `$require_resolve$` + sanitized `s`, for every
verdict and dependency set; that name differs from every `require` placeholder of the asset. -/
theorem C17_require_resolve_placeholder (asset : Asset) (scope : Scope) (slot : Slot)
    (s : String) (h : scope.hasBinding "require" false = false) :
    visit asset scope slot (requireResolveCall s) =
      some (.Identifier ("$" ++ toString asset.id ++ "$require_resolve$" ++ toIdentifier s)) ∧
    ∀ t : String,
      "$" ++ toString asset.id ++ "$require_resolve$" ++ toIdentifier s ≠
        "$" ++ toString asset.id ++ "$require$" ++ toIdentifier t := by
  constructor
  · simp [requireResolveCall, member, visit, CallExpression, isIdentifierNamed,
      singleStringLiteral, matchesPattern, memberChain, partName, replaceWith_identifier, h]
  · intro t e
    have e2 := congrArg String.data e
    simp [String.data_append] at e2

theorem C17_require_resolve_placeholder_witness :
    (Scope.mk .Program [] (some false) none).hasBinding "require" false = false ∧
    visit ⟨3, [], false⟩ (.mk .Program [] (some false) none) .expression
        (requireResolveCall "./a") = some (.Identifier "$3$require_resolve$a") :=
  ⟨by decide,
    (C17_require_resolve_placeholder ⟨3, [], false⟩ (.mk .Program [] (some false) none)
      .expression "./a" (by decide)).1⟩

/-! ## `module.hot` and `module.id` -/

/-- C18 as stated fails: at id 3, verdict false and no `module` binding, `module.hot` becomes
an identifier node named `null`, which is not the null literal node. -/
theorem C18_module_hot_not_null_literal :
    visit ⟨3, [], false⟩ (.mk .Program [] (some false) none) .expression
        (member (.Identifier "module") "hot") = some (.Identifier "null") ∧
      Node.Identifier "null" ≠ Node.NullLiteral := by
  constructor
  · rfl
  · intro e
    cases e

/-- C18, amended: with verdict false and no binding named `module` visible, `module.hot` is
replaced by an identifier node whose name is `null`. -/
theorem C18_module_hot_identifier_null (asset : Asset) (scope : Scope) (slot : Slot)
    (hm : scope.hasBinding "module" false = false) (hw : truthy scope.getData = false) :
    visit asset scope slot (member (.Identifier "module") "hot") =
      some (.Identifier "null") := by
  simp [member, visit, MemberExpression, matchesPattern, memberChain, partName,
    replaceWith_identifier, hm, hw]

theorem C18_module_hot_identifier_null_witness :
    (Scope.mk .Block [] none (some (.mk .Program [] (some false) none))).hasBinding "module" false
      = false ∧
    visit ⟨3, [], false⟩ (Scope.mk .Block [] none (some (.mk .Program [] (some false) none)))
      .expression (member (.Identifier "module") "hot") = some (.Identifier "null") :=
  ⟨by decide,
    C18_module_hot_identifier_null ⟨3, [], false⟩ _ .expression (by decide) (by decide)⟩

/-- C19 as stated fails: in the module `module.id = 5;` (id 3, verdict false, no `module`
binding) the member expression `module.id` is an assignment target; `replaceWith` does not
take a numeric literal there and throws, so nothing is replaced and the traversal ends with
the error. -/
theorem C19_module_id_assignment_target_throws :
    visit ⟨3, [], false⟩ (.mk .Program [] (some false) none) .lval
        (member (.Identifier "module") "id") = none ∧
    visit ⟨3, [], false⟩ (.mk .Program [] (some false) none) .expression
        (.AssignmentExpression "=" (member (.Identifier "module") "id") (.NumericLiteral 5)) =
      none ∧
    hoist ⟨[], [.ExpressionStatement (.AssignmentExpression "="
        (member (.Identifier "module") "id") (.NumericLiteral 5))]⟩ ⟨3, [], false⟩ = none := by
  refine ⟨by rfl, by rfl, by rfl⟩

/-- C19, amended: with verdict false and no binding named `module` visible, `module.id` in an
expression position is replaced by the numeric literal of the asset id, and in `module.id.x`,
in any position, only the `module.id` part is; where `module.id` is the target of an
assignment, `replaceWith` throws and nothing is replaced. -/
theorem C19_module_id_numeric_literal (asset : Asset) (scope : Scope)
    (hm : scope.hasBinding "module" false = false) (hw : truthy scope.getData = false) :
    visit asset scope .expression (member (.Identifier "module") "id") =
      some (.NumericLiteral asset.id) ∧
    (∀ (x : String) (slot : Slot),
      visit asset scope slot (member (member (.Identifier "module") "id") x) =
        some (member (.NumericLiteral asset.id) x)) ∧
    ∀ (operator : String) (right : Node) (slot : Slot),
      visit asset scope slot
        (.AssignmentExpression operator (member (.Identifier "module") "id") right) = none := by
  refine ⟨?_, ?_, ?_⟩
  · simp [member, visit, MemberExpression, matchesPattern, memberChain, partName,
      replaceWith, Slot.accepts, isExpression, hm, hw]
  · intro x slot
    simp [member, visit, MemberExpression, matchesPattern, memberChain, partName,
      replaceWith, Slot.accepts, isExpression, Slot.referenced, hm, hw]
  · intro operator right slot
    simp [member, visit, AssignmentExpression, MemberExpression, matchesPattern, memberChain,
      partName, replaceWith, Slot.accepts, isLVal, isIdentifierNamed, hm, hw]

theorem C19_module_id_numeric_literal_witness :
    visit ⟨3, [], false⟩ (.mk .Program [] (some false) none) .expression
        (member (.Identifier "module") "id") = some (.NumericLiteral 3) ∧
    visit ⟨3, [], false⟩ (.mk .Program [] (some false) none) .lval
        (member (member (.Identifier "module") "id") "x") =
      some (member (.NumericLiteral 3) "x") ∧
    visit ⟨3, [], false⟩ (.mk .Program [] (some false) none) .expression
        (.AssignmentExpression "=" (member (.Identifier "module") "id") (.NumericLiteral 5)) =
      none :=
  have h := C19_module_id_numeric_literal ⟨3, [], false⟩ (.mk .Program [] (some false) none)
    (by decide) (by decide)
  ⟨h.1, h.2.1 "x" .lval, h.2.2 "=" (.NumericLiteral 5) .expression⟩

/-! ## The analyzer -/

theorem hasBinding_noGlobals (scope : Scope) (name : String) :
    scope.hasBinding name true = scope.hasLocalBinding name := by
  simp [Scope.hasBinding]

theorem enterCall_eq (scope : Scope) (callee : Node) (args : List Node) :
    enterCallExpression ⟨.CallExpression callee args, scope⟩ ⟨false, false⟩ =
      ⟨isFreeEvalCall ⟨.CallExpression callee args, scope⟩,
        isFreeEvalCall ⟨.CallExpression callee args, scope⟩⟩ := by
  simp only [enterCallExpression, isFreeEvalCall, hasBinding_noGlobals]
  split <;> simp_all

theorem enterReturn_eq (scope : Scope) (argument : Option Node) :
    enterReturnStatement ⟨.ReturnStatement argument, scope⟩ ⟨false, false⟩ =
      ⟨isTopLevelReturn ⟨.ReturnStatement argument, scope⟩,
        isTopLevelReturn ⟨.ReturnStatement argument, scope⟩⟩ := by
  simp only [enterReturnStatement, isTopLevelReturn, Path.getFunctionParent, Scope.isProgram]
  split <;> simp_all

mutual
theorem scan_eq : ∀ (node : Node) (scope : Scope) (b : Bool),
    scan scope node ⟨b, b⟩ =
      ⟨b || (paths scope node).any (fun p => isFreeEvalCall p || isTopLevelReturn p),
        b || (paths scope node).any (fun p => isFreeEvalCall p || isTopLevelReturn p)⟩
  | .Identifier _, _, _ => by simp [scan, paths, isFreeEvalCall, isTopLevelReturn]
  | .StringLiteral _, _, _ => by simp [scan, paths, isFreeEvalCall, isTopLevelReturn]
  | .NumericLiteral _, _, _ => by simp [scan, paths, isFreeEvalCall, isTopLevelReturn]
  | .NullLiteral, _, _ => by simp [scan, paths, isFreeEvalCall, isTopLevelReturn]
  | .ThisExpression, _, _ => by simp [scan, paths, isFreeEvalCall, isTopLevelReturn]
  | .ObjectProperty _ value, scope, b => by
    simp [scan, paths, isFreeEvalCall, isTopLevelReturn, scan_eq value scope b]
  | .ObjectExpression properties, scope, b => by
    simp [scan, paths, isFreeEvalCall, isTopLevelReturn, scanList_eq properties scope b]
  | .MemberExpression object property _, scope, b => by
    simp [scan, paths, isFreeEvalCall, isTopLevelReturn, scan_eq object scope b,
      scan_eq property scope, Bool.or_assoc]
  | .CallExpression callee args, scope, b => by
    cases b
    · simp only [scan, Bool.false_eq_true, if_false, enterCall_eq, scan_eq callee scope,
        scanList_eq args scope, paths, List.any_cons, List.any_append, Bool.false_or,
        isTopLevelReturn, Bool.or_false, Bool.or_assoc]
    · simp [scan]
  | .UnaryExpression _ argument, scope, b => by
    simp [scan, paths, isFreeEvalCall, isTopLevelReturn, scan_eq argument scope b]
  | .AssignmentExpression _ left right, scope, b => by
    simp [scan, paths, isFreeEvalCall, isTopLevelReturn, scan_eq left scope b,
      scan_eq right scope, Bool.or_assoc]
  | .FunctionExpression _ _ bindings body, scope, b => by
    simp [scan, paths, isFreeEvalCall, isTopLevelReturn,
      scanList_eq body (scope.child .Function bindings) b]
  | .ExpressionStatement expression, scope, b => by
    simp [scan, paths, isFreeEvalCall, isTopLevelReturn, scan_eq expression scope b]
  | .ReturnStatement argument, scope, b => by
    cases b
    · simp only [scan, Bool.false_eq_true, if_false, enterReturn_eq,
        scanOption_eq argument scope, paths, List.any_cons, Bool.false_or,
        isFreeEvalCall]
    · simp [scan]
  | .VariableDeclarator id init, scope, b => by
    simp [scan, paths, isFreeEvalCall, isTopLevelReturn, scan_eq id scope b,
      scanOption_eq init scope, Bool.or_assoc]
  | .VariableDeclaration _ declarations, scope, b => by
    simp [scan, paths, isFreeEvalCall, isTopLevelReturn, scanList_eq declarations scope b]
  | .FunctionDeclaration _ _ bindings body, scope, b => by
    simp [scan, paths, isFreeEvalCall, isTopLevelReturn,
      scanList_eq body (scope.child .Function bindings) b]
  | .BlockStatement bindings body, scope, b => by
    simp [scan, paths, isFreeEvalCall, isTopLevelReturn,
      scanList_eq body (scope.child .Block bindings) b]
  | .IfStatement test consequent alternate, scope, b => by
    simp [scan, paths, isFreeEvalCall, isTopLevelReturn, scan_eq test scope b,
      scan_eq consequent scope, scanOption_eq alternate scope, Bool.or_assoc]
theorem scanList_eq : ∀ (nodes : List Node) (scope : Scope) (b : Bool),
    scanList scope nodes ⟨b, b⟩ =
      ⟨b || (pathsList scope nodes).any (fun p => isFreeEvalCall p || isTopLevelReturn p),
        b || (pathsList scope nodes).any (fun p => isFreeEvalCall p || isTopLevelReturn p)⟩
  | [], _, _ => by simp [scanList, pathsList]
  | node :: nodes, scope, b => by
    simp [scanList, pathsList, scan_eq node scope b, scanList_eq nodes scope, Bool.or_assoc]
theorem scanOption_eq : ∀ (node : Option Node) (scope : Scope) (b : Bool),
    scanOption scope node ⟨b, b⟩ =
      ⟨b || (pathsOption scope node).any (fun p => isFreeEvalCall p || isTopLevelReturn p),
        b || (pathsOption scope node).any (fun p => isFreeEvalCall p || isTopLevelReturn p)⟩
  | none, _, _ => by simp [scanOption, pathsOption]
  | some node, scope, b => by
    simp [scanOption, pathsOption, scan_eq node scope b]
end

theorem enter_scope (ast : Program) :
    (Program.enter ⟨ast, programScope ast⟩).scope =
      .mk .Program ast.bindings (some (hasTrigger ast)) none := by
  simp [Program.enter, scanList_eq, hasTrigger, programScope, Scope.setData]

theorem hasTrigger_true_iff (ast : Program) :
    hasTrigger ast = true ↔
      ∃ p ∈ pathsList (programScope ast) ast.body,
        isFreeEvalCall p = true ∨ isTopLevelReturn p = true := by
  simp [hasTrigger, List.any_eq_true]

/-- C1: a module that contains a call whose callee is the identifier `eval`, at a node where
no enclosing scope binds `eval`, gets the verdict `shouldWrap = true` stored on its top-level
scope by `Program.enter`. -/
theorem C1_free_eval_forces_wrap (ast : Program)
    (h : ∃ p ∈ pathsList (programScope ast) ast.body, ∃ args : List Node,
      p.node = .CallExpression (.Identifier "eval") args ∧
        p.scope.hasLocalBinding "eval" = false) :
    (Program.enter ⟨ast, programScope ast⟩).scope =
      .mk .Program ast.bindings (some true) none := by
  rw [enter_scope]
  have ht : hasTrigger ast = true := by
    rw [hasTrigger_true_iff]
    obtain ⟨p, hp, args, hn, hb⟩ := h
    refine ⟨p, hp, Or.inl ?_⟩
    simp [isFreeEvalCall, hn, hb, isIdentifierNamed]
  rw [ht]

theorem C1_free_eval_forces_wrap_witness :
    (Program.enter ⟨⟨[], [.ExpressionStatement
        (.CallExpression (.Identifier "eval") [.StringLiteral "x+1"])]⟩,
      programScope ⟨[], [.ExpressionStatement
        (.CallExpression (.Identifier "eval") [.StringLiteral "x+1"])]⟩⟩).scope =
      .mk .Program [] (some true) none :=
  C1_free_eval_forces_wrap
    ⟨[], [.ExpressionStatement (.CallExpression (.Identifier "eval") [.StringLiteral "x+1"])]⟩
    ⟨⟨.CallExpression (.Identifier "eval") [.StringLiteral "x+1"], .mk .Program [] none none⟩,
      by simp [pathsList, paths, programScope], [.StringLiteral "x+1"], rfl, by decide⟩

/-- C2: a module that contains a `return` statement whose nearest enclosing function boundary
is the program gets verdict true; a module in which every call of the identifier `eval` sees a
binding of `eval` and every `return` statement has a function as nearest boundary gets verdict
false. -/
theorem C2_top_level_return_forces_wrap (ast : Program) :
    ((∃ p ∈ pathsList (programScope ast) ast.body, ∃ argument : Option Node,
        p.node = .ReturnStatement argument ∧ p.scope.getFunctionParent.block = .Program) →
      (Program.enter ⟨ast, programScope ast⟩).scope =
        .mk .Program ast.bindings (some true) none) ∧
    ((∀ p ∈ pathsList (programScope ast) ast.body, ∀ args : List Node,
        p.node = .CallExpression (.Identifier "eval") args →
          p.scope.hasLocalBinding "eval" = true) →
      (∀ p ∈ pathsList (programScope ast) ast.body, ∀ argument : Option Node,
        p.node = .ReturnStatement argument → p.scope.getFunctionParent.block = .Function) →
      (Program.enter ⟨ast, programScope ast⟩).scope =
        .mk .Program ast.bindings (some false) none) := by
  constructor
  · intro h
    rw [enter_scope]
    have ht : hasTrigger ast = true := by
      rw [hasTrigger_true_iff]
      obtain ⟨p, hp, argument, hn, hb⟩ := h
      refine ⟨p, hp, Or.inr ?_⟩
      simp [isTopLevelReturn, hn, hb]
    rw [ht]
  · intro he hr
    rw [enter_scope]
    have ht : hasTrigger ast = false := by
      rw [Bool.eq_false_iff]
      intro hc
      rw [hasTrigger_true_iff] at hc
      obtain ⟨p, hp, hc⟩ := hc
      obtain ⟨node, scope⟩ := p
      rcases hc with hc | hc
      · cases node <;> simp [isFreeEvalCall] at hc
        rename_i callee args
        cases callee <;> simp [isIdentifierNamed] at hc
        obtain ⟨hname, hb⟩ := hc
        subst hname
        have := he _ hp args rfl
        simp [hb] at this
      · cases node <;> simp [isTopLevelReturn] at hc
        rename_i argument
        have := hr _ hp argument rfl
        simp [hc] at this
    rw [ht]

theorem C2_top_level_return_forces_wrap_witness :
    (Program.enter ⟨⟨[], [.IfStatement (.Identifier "x")
        (.BlockStatement [] [.ReturnStatement none]) none]⟩,
      programScope ⟨[], [.IfStatement (.Identifier "x")
        (.BlockStatement [] [.ReturnStatement none]) none]⟩⟩).scope =
      .mk .Program [] (some true) none ∧
    (Program.enter ⟨⟨["f"], [.FunctionDeclaration "f" [] [] [.ReturnStatement none]]⟩,
      programScope ⟨["f"], [.FunctionDeclaration "f" [] [] [.ReturnStatement none]]⟩⟩).scope =
      .mk .Program ["f"] (some false) none :=
  ⟨(C2_top_level_return_forces_wrap ⟨[], [.IfStatement (.Identifier "x")
      (.BlockStatement [] [.ReturnStatement none]) none]⟩).1
      ⟨⟨.ReturnStatement none, .mk .Block [] none (some (.mk .Program [] none none))⟩,
        by simp [pathsList, paths, pathsOption, programScope, Scope.child], none, rfl, rfl⟩,
    (C2_top_level_return_forces_wrap
      ⟨["f"], [.FunctionDeclaration "f" [] [] [.ReturnStatement none]]⟩).2
      (by simp [pathsList, paths, pathsOption, programScope])
      (by simp [pathsList, paths, pathsOption, programScope, Scope.child,
        Scope.getFunctionParent, Scope.block])⟩

/-- C20: the verdict `Program.enter` stores is the result of the exhaustive search for a free
`eval` call or a top-level `return`; with neither trigger in the tree the verdict is false; a
call of `eval` under a visible binding of `eval`, and a call through a member callee such as
`obj.eval(...)`, leave the analyzer state as it was. -/
theorem C20_verdict_only_from_triggers (ast : Program) :
    (Program.enter ⟨ast, programScope ast⟩).scope =
      .mk .Program ast.bindings (some (hasTrigger ast)) none ∧
    ((∀ p ∈ pathsList (programScope ast) ast.body,
        isFreeEvalCall p = false ∧ isTopLevelReturn p = false) →
      (Program.enter ⟨ast, programScope ast⟩).scope =
        .mk .Program ast.bindings (some false) none) ∧
    (∀ (scope : Scope) (args : List Node) (st : EnterState),
      scope.hasLocalBinding "eval" = true →
        enterCallExpression ⟨.CallExpression (.Identifier "eval") args, scope⟩ st = st) ∧
    (∀ (scope : Scope) (object : Node) (args : List Node) (st : EnterState),
      enterCallExpression ⟨.CallExpression (member object "eval") args, scope⟩ st = st) := by
  refine ⟨enter_scope ast, ?_, ?_, ?_⟩
  · intro h
    rw [enter_scope]
    have ht : hasTrigger ast = false := by
      rw [Bool.eq_false_iff]
      intro hc
      rw [hasTrigger_true_iff] at hc
      obtain ⟨p, hp, hc⟩ := hc
      have := h p hp
      rcases hc with hc | hc <;> simp_all
    rw [ht]
  · intro scope args st h
    simp [enterCallExpression, Scope.hasBinding, h]
  · intro scope object args st
    simp [enterCallExpression, member, isIdentifierNamed]

theorem C20_verdict_only_from_triggers_witness :
    (Program.enter ⟨⟨[], [.FunctionDeclaration "f" ["eval"] ["eval"]
        [.ExpressionStatement (.CallExpression (.Identifier "eval") [.StringLiteral "x"])],
        .ExpressionStatement (.CallExpression (member (.Identifier "obj") "eval") [])]⟩,
      programScope ⟨[], [.FunctionDeclaration "f" ["eval"] ["eval"]
        [.ExpressionStatement (.CallExpression (.Identifier "eval") [.StringLiteral "x"])],
        .ExpressionStatement (.CallExpression (member (.Identifier "obj") "eval") [])]⟩⟩).scope =
      .mk .Program [] (some false) none :=
  (C20_verdict_only_from_triggers ⟨[], [.FunctionDeclaration "f" ["eval"] ["eval"]
        [.ExpressionStatement (.CallExpression (.Identifier "eval") [.StringLiteral "x"])],
        .ExpressionStatement (.CallExpression (member (.Identifier "obj") "eval") [])]⟩).2.1
    (by simp [pathsList, paths, pathsOption, programScope, isFreeEvalCall, isTopLevelReturn,
      member, isIdentifierNamed, Scope.child, Scope.hasLocalBinding])

/-! ## Decimal asset ids -/

theorem digitChar_ne_dollar (d : Nat) (h : d < 10) : Nat.digitChar d ≠ '$' := by
  interval_cases d <;> decide

theorem digitChar_val (d : Nat) (h : d < 10) : (Nat.digitChar d).toNat - 48 = d := by
  interval_cases d <;> decide

theorem toDigitsCore_no_dollar (fuel : Nat) : ∀ (n : Nat) (ds : List Char),
    '$' ∉ ds → '$' ∉ Nat.toDigitsCore 10 fuel n ds := by
  induction fuel with
  | zero => intro n ds h; simpa [Nat.toDigitsCore] using h
  | succ fuel ih =>
    intro n ds h
    have hd : '$' ≠ Nat.digitChar (n % 10) :=
      fun e => digitChar_ne_dollar (n % 10) (Nat.mod_lt _ (by decide)) e.symm
    simp only [Nat.toDigitsCore]
    split
    · simp [h, hd]
    · apply ih
      simp [h, hd]

theorem toDigitsCore_decode (fuel : Nat) : ∀ (n : Nat) (ds : List Char), n < fuel →
    (Nat.toDigitsCore 10 fuel n ds).foldl (fun acc c => 10 * acc + (c.toNat - 48)) 0 =
      ds.foldl (fun acc c => 10 * acc + (c.toNat - 48)) n := by
  induction fuel with
  | zero => intro n ds h; omega
  | succ fuel ih =>
    intro n ds h
    simp only [Nat.toDigitsCore]
    split
    · rename_i h0
      have hn : n < 10 := by omega
      have hm : n % 10 = n := by omega
      simp only [List.foldl, hm, digitChar_val n hn, Nat.mul_zero, Nat.zero_add]
    · rename_i h0
      rw [ih (n / 10) _ (by omega)]
      simp only [List.foldl, digitChar_val (n % 10) (Nat.mod_lt _ (by decide))]
      congr 1
      omega

theorem repr_no_dollar (n : Nat) : '$' ∉ (toString n).data := by
  show '$' ∉ (Nat.repr n).data
  simp only [Nat.repr, Nat.toDigits, List.asString]
  exact toDigitsCore_no_dollar _ _ _ (by simp)

theorem repr_injective (a b : Nat) (h : toString a = toString b) : a = b := by
  have h2 : (Nat.repr a).data = (Nat.repr b).data := congrArg String.data h
  simp only [Nat.repr, Nat.toDigits, List.asString] at h2
  have ha := toDigitsCore_decode (a + 1) a [] (by omega)
  have hb := toDigitsCore_decode (b + 1) b [] (by omega)
  rw [h2] at ha
  simp only [List.foldl] at ha hb
  omega

theorem append_dollar_inj : ∀ (l₁ l₂ u v : List Char), '$' ∉ l₁ → '$' ∉ l₂ →
    l₁ ++ '$' :: u = l₂ ++ '$' :: v → l₁ = l₂ ∧ u = v
  | [], [], u, v, _, _, h => by simpa using h
  | [], c :: l₂, u, v, _, h2, h => by
    simp at h
    simp [← h.1] at h2
  | c :: l₁, [], u, v, h1, _, h => by
    simp at h
    simp [h.1] at h1
  | c :: l₁, d :: l₂, u, v, h1, h2, h => by
    simp at h
    simp at h1 h2
    obtain ⟨ih1, ih2⟩ := append_dollar_inj l₁ l₂ u v h1.2 h2.2 h.2
    simp [h.1, ih1, ih2]

/-- Every generated name has the form `$`, the id in decimal, `$`, a suffix; id and suffix can
be read back from it. -/
theorem name_inj (a b : Nat) (u v : String)
    (h : "$" ++ toString a ++ "$" ++ u = "$" ++ toString b ++ "$" ++ v) : a = b ∧ u = v := by
  have h2 := congrArg String.data h
  simp only [String.data_append] at h2
  have h3 : (toString a).data ++ '$' :: u.data = (toString b).data ++ '$' :: v.data := by
    simpa using h2
  obtain ⟨e1, e2⟩ := append_dollar_inj _ _ _ _ (repr_no_dollar a) (repr_no_dollar b) h3
  exact ⟨repr_injective a b (String.ext e1), String.ext e2⟩

/-- The suffix of a generated name after `$id$`. -/
theorem generatedName_form (id : Nat) (role : Role) (x : String) :
    ∃ u : String, generatedName id role x = "$" ++ toString id ++ "$" ++ u := by
  cases role
  · exact ⟨"exports", by simp [generatedName, String.append_assoc]⟩
  · exact ⟨"var$" ++ x, by simp [generatedName, String.append_assoc]; rfl⟩
  · exact ⟨"require$" ++ toIdentifier x, by simp [generatedName, String.append_assoc]; rfl⟩
  · exact ⟨"require_resolve$" ++ toIdentifier x,
      by simp [generatedName, String.append_assoc]; rfl⟩

/-- C15: generated names never collide across assets or roles.  For asset ids `a ≠ b` no name
of any role built for `a` equals a name of any role built for `b` (in particular
`$a$var$x ≠ $b$var$y` and `$a$exports ≠ $b$exports`); for one asset, `x ≠ y` gives
`$a$var$x ≠ $a$var$y`, and no var, require or require_resolve name equals `$a$exports`.  The
names are the ones the visitor builds (`getExportsIdentifier`, the rename loop, the
placeholders of `CallExpression`). -/
theorem C15_generated_names_distinct (a b : Nat) (x y : String) :
    (a ≠ b → ∀ r₁ r₂ : Role, generatedName a r₁ x ≠ generatedName b r₂ y) ∧
    (a ≠ b → "$" ++ toString a ++ "$var$" ++ x ≠ "$" ++ toString b ++ "$var$" ++ y) ∧
    (a ≠ b → ∀ (d₁ d₂ : List String) (f₁ f₂ : Bool),
      getExportsIdentifier ⟨a, d₁, f₁⟩ ≠ getExportsIdentifier ⟨b, d₂, f₂⟩) ∧
    (x ≠ y → "$" ++ toString a ++ "$var$" ++ x ≠ "$" ++ toString a ++ "$var$" ++ y) ∧
    (∀ r : Role, r ≠ .exports → generatedName a r x ≠ generatedName a .exports y) ∧
    (∀ (d : List String) (f : Bool),
      getExportsIdentifier ⟨a, d, f⟩ = .Identifier (generatedName a .exports x)) ∧
    (∀ (d : List String) (f : Bool) (scope : Scope),
      scope.hasBinding "require" false = false → x ∈ d →
      CallExpression ⟨requireCall x, scope⟩ ⟨a, d, f⟩ =
        some (.Identifier (generatedName a .require x))) ∧
    (∀ (d : List String) (f : Bool) (scope : Scope),
      scope.hasBinding "require" false = false →
      CallExpression ⟨requireResolveCall x, scope⟩ ⟨a, d, f⟩ =
        some (.Identifier (generatedName a .requireResolve x))) := by
  have cross : a ≠ b → ∀ r₁ r₂ : Role, generatedName a r₁ x ≠ generatedName b r₂ y := by
    intro hab r₁ r₂ e
    obtain ⟨u, hu⟩ := generatedName_form a r₁ x
    obtain ⟨v, hv⟩ := generatedName_form b r₂ y
    rw [hu, hv] at e
    exact hab (name_inj a b u v e).1
  refine ⟨cross, ?_, ?_, ?_, ?_, ?_, ?_, ?_⟩
  · intro hab
    exact cross hab .var .var
  · intro hab d₁ d₂ f₁ f₂ e
    have e2 : generatedName a .exports x = generatedName b .exports y := by
      simpa [getExportsIdentifier, generatedName] using e
    exact cross hab .exports .exports e2
  · intro hxy e
    apply hxy
    have e2 := congrArg String.data e
    simp only [String.data_append, List.append_cancel_left_eq] at e2
    exact String.ext e2
  · intro r hr e
    cases r
    · exact hr rfl
    all_goals
      have e2 := congrArg String.data e
      simp [generatedName, String.data_append] at e2
  · intro d f
    rfl
  · intro d f scope hs hx
    simp [requireCall, CallExpression, isIdentifierNamed, singleStringLiteral, matchesPattern,
      hs, hx, generatedName]
  · intro d f scope hs
    simp [requireResolveCall, member, CallExpression, isIdentifierNamed, singleStringLiteral,
      matchesPattern, memberChain, partName, hs, generatedName]

/-! ## The sanitizer -/

theorem wordChar_ne_dash (c : Char) (hc : isWordChar c = true) : (c == '-') = false := by
  cases hcd : c == '-'
  · rfl
  · have : c = '-' := by simpa using hcd
    subst this
    revert hc
    decide

theorem camelCase_of_no_dash : ∀ l : List Char, (∀ c ∈ l, isWordChar c = true) →
    camelCase false l = l
  | [], _ => by simp [camelCase]
  | c :: cs, h => by
    have hc : isWordChar c = true := h c (by simp)
    have hd : (c == '-') = false := wordChar_ne_dash c hc
    simp only [camelCase, hd, Bool.false_eq_true, if_false]
    rw [camelCase_of_no_dash cs (fun c hc => h c (by simp [hc]))]

/-- A specifier that already is a valid identifier is kept by the sanitizer. -/
theorem toIdentifier_of_valid (s : String) (h : isValidIdentifier s.data = true) :
    toIdentifier s = s := by
  obtain ⟨l⟩ := s
  cases l with
  | nil => simp [isValidIdentifier] at h
  | cons c cs =>
    have h' := h
    simp only [isValidIdentifier, Bool.and_eq_true, Bool.not_eq_true', List.all_eq_true] at h'
    obtain ⟨_, ⟨hc, hdig⟩, hcs⟩ := h'
    have hall : ∀ x ∈ c :: cs, isWordChar x = true := by
      intro x hx
      rcases List.mem_cons.1 hx with rfl | hx
      · exact hc
      · exact hcs x hx
    have hmap : List.map (fun c => if isWordChar c = true then c else '-') (c :: cs) = c :: cs := by
      conv_rhs => rw [← List.map_id (c :: cs)]
      apply List.map_congr_left
      intro x hx
      simp [hall x hx]
    have hd : (c == '-') = false := wordChar_ne_dash c hc
    simp only [toIdentifier, hmap]
    simp only [List.dropWhile, hd, hdig, Bool.or_self]
    rw [camelCase_of_no_dash _ hall]
    simp [h]

/-- C16: the code does not do what the claim, and the comment above the placeholder ("Generate
a variable name based on the current asset id and the module name to require. This will be
replaced by the final variable name of the resolved asset in the packager."), say.  In the
module `require("./a"); require("../a");` of asset 3 with both specifiers in the dependency
set, the two distinct specifiers get the same placeholder `$3$require$a`, so the whole visitor
leaves the same identifier for both calls and no later stage can tell the two modules apart. -/
theorem C16_distinct_specifiers_collide :
    "./a" ≠ "../a" ∧
    visit ⟨3, ["./a", "../a"], false⟩ (.mk .Program [] (some false) none) .expression
        (requireCall "./a") = some (.Identifier "$3$require$a") ∧
    visit ⟨3, ["./a", "../a"], false⟩ (.mk .Program [] (some false) none) .expression
        (requireCall "../a") = some (.Identifier "$3$require$a") ∧
    (hoist ⟨[], [.ExpressionStatement (requireCall "./a"),
        .ExpressionStatement (requireCall "../a")]⟩ ⟨3, ["./a", "../a"], false⟩).map
        (fun r => r.1.body) =
      some [EXPORTS_TEMPLATE (.Identifier "$3$exports"),
        .ExpressionStatement (.Identifier "$3$require$a"),
        .ExpressionStatement (.Identifier "$3$require$a")] := by
  refine ⟨by decide, ?_, ?_, ?_⟩ <;> rfl

/-! ## `require` -/

/-- C8: a call `require("x")` whose specifier is not in the dependency set comes out of the
pass unchanged, for every verdict and scope. -/
theorem C8_unresolved_require_untouched (asset : Asset) (scope : Scope) (slot : Slot)
    (x : String) (h : x ∉ asset.dependencies) :
    visit asset scope slot (requireCall x) = some (requireCall x) := by
  cases hb : scope.hasBinding "require" false <;>
    simp [requireCall, visit, visitList, CallExpression, ReferencedIdentifier,
      isIdentifierNamed, singleStringLiteral, matchesPattern, Slot.referenced, h, hb]

theorem C8_unresolved_require_untouched_witness :
    "x" ∉ (Asset.mk 3 ["./a"] false).dependencies ∧
    visit ⟨3, ["./a"], false⟩ (.mk .Program [] (some false) none) .expression
        (requireCall "x") = some (requireCall "x") :=
  ⟨by decide,
    C8_unresolved_require_untouched ⟨3, ["./a"], false⟩ _ .expression "x" (by decide)⟩

/-- C9 as stated fails in its example: for asset 3 and the specifier `./a` of the dependency
set, the call is replaced by the identifier `$3$require$a`, not `$3$require$_a`. -/
theorem C9_example_placeholder :
    visit ⟨3, ["./a"], false⟩ (.mk .Program [] (some false) none) .expression
        (requireCall "./a") = some (.Identifier "$3$require$a") ∧
    (hoist ⟨[], [.ExpressionStatement (requireCall "./a")]⟩ ⟨3, ["./a"], false⟩).map
        (fun r => r.1.body) =
      some [EXPORTS_TEMPLATE (.Identifier "$3$exports"),
        .ExpressionStatement (.Identifier "$3$require$a")] ∧
    Node.Identifier "$3$require$a" ≠ Node.Identifier "$3$require$_a" := by
  refine ⟨by rfl, by rfl, ?_⟩
  intro e
  injection e with e
  revert e
  decide

/-- C9, amended: a call `require(s)` with one string literal `s` of the dependency set, where
no binding named `require` is visible, is replaced by the identifier named
`$` + id + `$require$` + sanitized `s`; the sanitized form of `./a` is `a`. -/
theorem C9_require_placeholder (asset : Asset) (scope : Scope) (slot : Slot) (s : String)
    (hd : s ∈ asset.dependencies)
    (hb : scope.hasBinding "require" false = false) :
    visit asset scope slot (requireCall s) =
      some (.Identifier ("$" ++ toString asset.id ++ "$require$" ++ toIdentifier s)) ∧
    toIdentifier "./a" = "a" := by
  constructor
  · simp [requireCall, visit, CallExpression, isIdentifierNamed, singleStringLiteral,
      matchesPattern, replaceWith_identifier, hd, hb]
  · rfl

theorem C9_require_placeholder_witness :
    "./a" ∈ (Asset.mk 3 ["./a"] false).dependencies ∧
    visit ⟨3, ["./a"], false⟩ (.mk .Program [] (some false) none) .expression
        (requireCall "./a") =
      some (.Identifier ("$" ++ toString 3 ++ "$require$" ++ toIdentifier "./a")) :=
  ⟨by decide,
    (C9_require_placeholder ⟨3, ["./a"], false⟩ (.mk .Program [] (some false) none)
      .expression "./a" (by decide) (by decide)).1⟩

/-! ## `typeof module` -/

/-- C10: `typeof module` is replaced by the string literal `"object"` where no binding named
`module` is visible (verdict false), and is left unchanged wherever a binding named `module` is
visible.  (A unary expression stands in an expression position; in a position that takes no
string literal `replaceWith` throws.) -/
theorem C10_typeof_module (asset : Asset) (scope : Scope) :
    (scope.hasBinding "module" false = false → truthy scope.getData = false →
      visit asset scope .expression typeofModule = some (.StringLiteral "object") ∧
      ∀ slot : Slot, visit asset scope slot typeofModule =
        replaceWith slot (.StringLiteral "object")) ∧
    (scope.hasBinding "module" false = true →
      ∀ slot : Slot, visit asset scope slot typeofModule = some typeofModule) := by
  constructor
  · intro hm hw
    constructor
    · simp [typeofModule, visit, UnaryExpression, isIdentifierNamed, replaceWith,
        Slot.accepts, isExpression, hm, hw]
    · intro slot
      simp [typeofModule, visit, UnaryExpression, isIdentifierNamed, hm, hw]
  · intro hm slot
    simp [typeofModule, visit, UnaryExpression, ReferencedIdentifier, isIdentifierNamed, hm]

theorem C10_typeof_module_witness :
    visit ⟨3, [], false⟩ (.mk .Program [] (some false) none) .expression typeofModule =
      some (.StringLiteral "object") ∧
    visit ⟨3, [], false⟩ (.mk .Program ["module"] (some false) none) .expression typeofModule =
      some typeofModule :=
  ⟨((C10_typeof_module ⟨3, [], false⟩ (.mk .Program [] (some false) none)).1
      (by decide) (by decide)).1,
    (C10_typeof_module ⟨3, [], false⟩ (.mk .Program ["module"] (some false) none)).2
      (by decide) .expression⟩

/-! ## The exports identifier -/

/-- C7: with verdict false, `module.exports` where no binding named `module` is visible, and a
bare `exports` (a reference, or the whole left-hand side of an assignment) where no binding
named `exports` is visible, are replaced by the identifier `$` + id + `$exports`; the module
`module.exports = function(){ return 1; }` with id 3 and no dependencies becomes
`var $3$exports = {}; $3$exports = function(){ return 1; };`. -/
theorem C7_exports_identifier (asset : Asset) (scope : Scope) (slot : Slot)
    (hw : truthy scope.getData = false) :
    (scope.hasBinding "module" false = false →
      visit asset scope slot (member (.Identifier "module") "exports") =
        some (.Identifier ("$" ++ toString asset.id ++ "$exports"))) ∧
    (scope.hasBinding "exports" false = false →
      visit asset scope .expression (.Identifier "exports") =
        some (.Identifier ("$" ++ toString asset.id ++ "$exports")) ∧
      ∀ (operator : String) (right : Node),
        visit asset scope slot
            (.AssignmentExpression operator (.Identifier "exports") right) =
          (visit asset scope .expression right).map
            (.AssignmentExpression operator
              (.Identifier ("$" ++ toString asset.id ++ "$exports")))) ∧
    (hoist ⟨[], [.ExpressionStatement (.AssignmentExpression "="
        (member (.Identifier "module") "exports")
        (.FunctionExpression none [] [] [.ReturnStatement (some (.NumericLiteral 1))]))]⟩
        ⟨3, [], false⟩).map (fun r => r.1.body) =
      some [.VariableDeclaration "var"
          [.VariableDeclarator (.Identifier "$3$exports") (some (.ObjectExpression []))],
        .ExpressionStatement (.AssignmentExpression "=" (.Identifier "$3$exports")
          (.FunctionExpression none [] [] [.ReturnStatement (some (.NumericLiteral 1))]))] := by
  refine ⟨fun hm => ?_, fun he => ?_, by rfl⟩
  · simp [member, visit, MemberExpression, matchesPattern, memberChain, partName,
      getExportsIdentifier, replaceWith_identifier, hm, hw]
  · constructor
    · simp [visit, ReferencedIdentifier, getExportsIdentifier, replaceWith_identifier,
        Slot.referenced, he, hw]
    · intro operator right
      simp [visit, AssignmentExpression, isIdentifierNamed, getExportsIdentifier,
        replaceWith_identifier, he, hw]

theorem C7_exports_identifier_witness :
    truthy (Scope.mk .Program [] (some false) none).getData = false ∧
    visit ⟨3, [], false⟩ (.mk .Program [] (some false) none) .expression
        (member (.Identifier "module") "exports") = some (.Identifier "$3$exports") ∧
    visit ⟨3, [], false⟩ (.mk .Program [] (some false) none) .expression
        (.Identifier "exports") = some (.Identifier "$3$exports") :=
  have h := C7_exports_identifier ⟨3, [], false⟩ (.mk .Program [] (some false) none)
    .expression (by decide)
  ⟨by decide, h.1 (by decide), (h.2.1 (by decide)).1⟩

/-! ## A replaced node needs no second visit -/

theorem visit_identifier_of_ne (asset : Asset) (scope : Scope) (slot : Slot)
    (name : String) (h : name ≠ "exports") :
    visit asset scope slot (.Identifier name) = some (.Identifier name) := by
  cases slot <;> simp [visit, ReferencedIdentifier, Slot.referenced, h]

theorem visit_dollar (asset : Asset) (scope : Scope) (slot : Slot) (x : String) :
    visit asset scope slot (.Identifier ("$" ++ x)) = some (.Identifier ("$" ++ x)) :=
  visit_identifier_of_ne asset scope slot _ (dollar_ne x "exports" (by decide))

theorem visit_exportsIdentifier (asset : Asset) (scope : Scope) (slot : Slot) :
    visit asset scope slot (getExportsIdentifier asset) = some (getExportsIdentifier asset) := by
  simp only [getExportsIdentifier, String.append_assoc]
  exact visit_dollar asset scope slot _

theorem visit_requireModules (asset : Asset) (scope : Scope) (slot : Slot) :
    visit asset scope slot
        (.MemberExpression (.Identifier "require") (.Identifier "modules") false) =
      some (.MemberExpression (.Identifier "require") (.Identifier "modules") false) := by
  simp [visit, MemberExpression, ReferencedIdentifier, matchesPattern, memberChain, partName,
    Slot.referenced]

/-- What each visitor can put in place. -/
theorem MemberExpression_some (path : Path) (asset : Asset) (replacement : Node)
    (h : MemberExpression path asset = some replacement) :
    replacement = getExportsIdentifier asset ∨ replacement = .NumericLiteral asset.id ∨
      replacement = .Identifier "null" ∨
      replacement = .MemberExpression (.Identifier "require") (.Identifier "modules") false := by
  simp only [MemberExpression] at h
  split at h
  · simp at h
  · simp only [Option.getD_none] at h
    split at h <;> split at h <;> split at h <;> split at h <;> simp_all

theorem CallExpression_some (path : Path) (asset : Asset) (replacement : Node)
    (h : CallExpression path asset = some replacement) :
    ∃ x : String, replacement = .Identifier ("$" ++ x) := by
  simp only [CallExpression] at h
  split at h
  · split at h
    · simp at h
    · split at h
      · exact ⟨_, by rw [← Option.some.inj h, String.append_assoc, String.append_assoc]⟩
      · split at h
        · exact ⟨_, by rw [← Option.some.inj h, String.append_assoc, String.append_assoc]⟩
        · simp at h
  · simp at h

/-- The walk leaves a node a visitor has put in place as it is; Babel queues such a node again,
and visiting it once more changes nothing: what `MemberExpression`, `CallExpression`,
`UnaryExpression`, `ThisExpression`, `ReferencedIdentifier` or `AssignmentExpression` puts in
place is a fixed point of the walk, in every position. -/
theorem requeue_fixed (asset : Asset) (path : Path) (slot : Slot) (replacement : Node)
    (h : MemberExpression path asset = some replacement ∨
      CallExpression path asset = some replacement ∨
      UnaryExpression path = some replacement ∨
      ThisExpression path asset = some replacement ∨
      ReferencedIdentifier path asset = some replacement ∨
      AssignmentExpression path asset = some replacement) :
    visit asset path.scope slot replacement = some replacement := by
  rcases h with h | h | h | h | h | h
  · rcases MemberExpression_some path asset replacement h with e | e | e | e <;> subst e
    · exact visit_exportsIdentifier _ _ _
    · simp [visit]
    · exact visit_identifier_of_ne _ _ _ _ (by decide)
    · exact visit_requireModules _ _ _
  · obtain ⟨x, e⟩ := CallExpression_some path asset replacement h
    subst e
    exact visit_dollar _ _ _ _
  · simp only [UnaryExpression] at h
    split at h
    · split at h
      · rw [← Option.some.inj h]
        simp [visit]
      · simp at h
    · simp at h
  · simp only [ThisExpression] at h
    split at h
    · rw [← Option.some.inj h]
      exact visit_exportsIdentifier _ _ _
    · simp at h
  · simp only [ReferencedIdentifier] at h
    split at h
    · split at h
      · rw [← Option.some.inj h]
        exact visit_exportsIdentifier _ _ _
      · simp at h
    · simp at h
  · simp only [AssignmentExpression] at h
    split at h
    · split at h
      · rw [← Option.some.inj h]
        exact visit_exportsIdentifier _ _ _
      · simp at h
    · simp at h

/-! ## A wrapped module never makes `replaceWith` throw -/

mutual
theorem visit_wrapped_isSome (asset : Asset) : ∀ (node : Node) (scope : Scope) (slot : Slot),
    truthy scope.getData = true → (visit asset scope slot node).isSome = true
  | .Identifier name, scope, slot, h => by
    simp [visit, ReferencedIdentifier, h]
  | .StringLiteral _, _, _, _ => by simp [visit]
  | .NumericLiteral _, _, _, _ => by simp [visit]
  | .NullLiteral, _, _, _ => by simp [visit]
  | .ThisExpression, scope, _, h => by simp [visit, ThisExpression, h]
  | .ObjectProperty _ value, scope, _, h => by
    simp [visit, visit_wrapped_isSome asset value scope .expression h]
  | .ObjectExpression properties, scope, _, h => by
    simp [visit, visitList_wrapped_isSome asset properties scope h]
  | .MemberExpression object property computed, scope, _, h => by
    have h1 := visit_wrapped_isSome asset object scope .expression h
    have h2 := visit_wrapped_isSome asset property scope
      (if computed then .expression else .property) h
    obtain ⟨o, ho⟩ := Option.isSome_iff_exists.1 h1
    obtain ⟨p, hp⟩ := Option.isSome_iff_exists.1 h2
    simp [visit, MemberExpression, h, ho, hp]
  | .CallExpression callee args, scope, slot, h => by
    cases hv : CallExpression ⟨.CallExpression callee args, scope⟩ asset with
    | some r =>
      obtain ⟨x, e⟩ := CallExpression_some _ _ _ hv
      subst e
      simp [visit, hv, replaceWith_identifier]
    | none =>
      obtain ⟨c, hc⟩ := Option.isSome_iff_exists.1
        (visit_wrapped_isSome asset callee scope .expression h)
      obtain ⟨a, ha⟩ := Option.isSome_iff_exists.1
        (visitList_wrapped_isSome asset args scope h)
      simp [visit, hv, hc, ha]
  | .UnaryExpression operator argument, scope, _, h => by
    simp [visit, UnaryExpression, h, visit_wrapped_isSome asset argument scope .expression h]
  | .AssignmentExpression operator left right, scope, _, h => by
    obtain ⟨l, hl⟩ := Option.isSome_iff_exists.1
      (visit_wrapped_isSome asset left scope .lval h)
    obtain ⟨r, hr⟩ := Option.isSome_iff_exists.1
      (visit_wrapped_isSome asset right scope .expression h)
    simp [visit, AssignmentExpression, h, hl, hr]
  | .FunctionExpression _ _ bindings body, scope, _, h => by
    simp [visit, visitList_wrapped_isSome asset body (scope.child .Function bindings)
      (by rw [getData_child]; exact h)]
  | .ExpressionStatement expression, scope, _, h => by
    simp [visit, visit_wrapped_isSome asset expression scope .expression h]
  | .ReturnStatement argument, scope, _, h => by
    simp [visit, visitOption_wrapped_isSome asset argument scope h]
  | .VariableDeclarator id init, scope, _, h => by
    obtain ⟨i, hi⟩ := Option.isSome_iff_exists.1
      (visit_wrapped_isSome asset id scope .lval h)
    obtain ⟨j, hj⟩ := Option.isSome_iff_exists.1
      (visitOption_wrapped_isSome asset init scope h)
    simp [visit, hi, hj]
  | .VariableDeclaration _ declarations, scope, _, h => by
    simp [visit, visitList_wrapped_isSome asset declarations scope h]
  | .FunctionDeclaration _ _ bindings body, scope, _, h => by
    simp [visit, visitList_wrapped_isSome asset body (scope.child .Function bindings)
      (by rw [getData_child]; exact h)]
  | .BlockStatement bindings body, scope, _, h => by
    simp [visit, visitList_wrapped_isSome asset body (scope.child .Block bindings)
      (by rw [getData_child]; exact h)]
  | .IfStatement test consequent alternate, scope, _, h => by
    obtain ⟨t, ht⟩ := Option.isSome_iff_exists.1
      (visit_wrapped_isSome asset test scope .expression h)
    obtain ⟨c, hc⟩ := Option.isSome_iff_exists.1
      (visit_wrapped_isSome asset consequent scope .expression h)
    obtain ⟨a, ha⟩ := Option.isSome_iff_exists.1
      (visitOption_wrapped_isSome asset alternate scope h)
    simp [visit, ht, hc, ha]
theorem visitList_wrapped_isSome (asset : Asset) : ∀ (nodes : List Node) (scope : Scope),
    truthy scope.getData = true → (visitList asset scope nodes).isSome = true
  | [], _, _ => by simp [visitList]
  | node :: nodes, scope, h => by
    obtain ⟨n, hn⟩ := Option.isSome_iff_exists.1
      (visit_wrapped_isSome asset node scope .expression h)
    obtain ⟨l, hl⟩ := Option.isSome_iff_exists.1
      (visitList_wrapped_isSome asset nodes scope h)
    simp [visitList, hn, hl]
theorem visitOption_wrapped_isSome (asset : Asset) : ∀ (node : Option Node) (scope : Scope),
    truthy scope.getData = true → (visitOption asset scope node).isSome = true
  | none, _, _ => by simp [visitOption]
  | some node, scope, h => by
    simp [visitOption, visit_wrapped_isSome asset node scope .expression h]
end

/-! ## `Program.exit` -/

theorem visitList_length (asset : Asset) (scope : Scope) : ∀ (nodes body : List Node),
    visitList asset scope nodes = some body → body.length = nodes.length
  | [], body, h => by
    simp [visitList] at h
    subst h
    rfl
  | node :: nodes, body, h => by
    simp only [visitList, Option.bind_eq_some, Option.map_eq_some'] at h
    obtain ⟨node', _, nodes', hl, e⟩ := h
    subst e
    simp [visitList_length asset scope nodes nodes' hl]

theorem visitList_getElem? (asset : Asset) (scope : Scope) :
    ∀ (nodes body : List Node) (i : Nat) (node : Node),
    visitList asset scope nodes = some body → nodes[i]? = some node →
    body[i]? = visit asset scope .expression node
  | [], body, i, node, _, hi => by simp at hi
  | first :: nodes, body, 0, node, h, hi => by
    simp only [visitList, Option.bind_eq_some, Option.map_eq_some'] at h
    obtain ⟨first', hf, nodes', _, e⟩ := h
    subst e
    simp at hi
    subst hi
    simp [hf]
  | first :: nodes, body, i + 1, node, h, hi => by
    simp only [visitList, Option.bind_eq_some, Option.map_eq_some'] at h
    obtain ⟨first', _, nodes', hl, e⟩ := h
    subst e
    simp at hi
    simpa using visitList_getElem? asset scope nodes nodes' i node hl hi

theorem renameList_eq_map (oldName newName : String) : ∀ nodes : List Node,
    renameList oldName newName nodes = nodes.map (rename oldName newName true)
  | [] => by simp [renameList]
  | node :: nodes => by simp [renameList, renameList_eq_map oldName newName nodes]

theorem renameAll_nil : renameAll [] = id := by
  funext node
  rfl

theorem renameAll_cons (pair : String × String) (pairs : List (String × String)) :
    renameAll (pair :: pairs) = renameAll pairs ∘ rename pair.1 pair.2 true := by
  funext node
  rfl

theorem rename_fold_body (asset : Asset) : ∀ (names : List String) (path : ProgramPath),
    ∃ pairs : List (String × String),
      (names.foldl (fun path name =>
        path.rename name ("$" ++ toString asset.id ++ "$var$" ++ name)) path).node.body =
        path.node.body.map (renameAll pairs)
  | [], path => ⟨[], by simp [renameAll_nil]⟩
  | name :: names, path => by
    obtain ⟨pairs, h⟩ := rename_fold_body asset names
      (path.rename name ("$" ++ toString asset.id ++ "$var$" ++ name))
    simp only [List.foldl_cons, h]
    by_cases hc : name ∈ path.scope.bindings
    · refine ⟨(name, "$" ++ toString asset.id ++ "$var$" ++ name) :: pairs, ?_⟩
      simp [ProgramPath.rename, hc, renameList_eq_map, renameAll_cons]
    · refine ⟨pairs, ?_⟩
      simp [ProgramPath.rename, hc]

theorem hoist_eq (ast : Program) (asset : Asset) :
    hoist ast asset =
      (visitList asset (.mk .Program ast.bindings (some (hasTrigger ast)) none) ast.body).map
        fun body =>
          ((Program.exit ⟨⟨ast.bindings, body⟩,
            .mk .Program ast.bindings (some (hasTrigger ast)) none⟩ asset).1.node,
            { asset with isAstDirty := true }) := by
  have h := enter_scope ast
  simp only [hoist, substitute]
  have hn : (Program.enter ⟨ast, programScope ast⟩).node = ast := rfl
  rw [h, hn]
  cases visitList asset (.mk .Program ast.bindings (some (hasTrigger ast)) none) ast.body <;> rfl

/-- C3: with verdict true, `Program.exit` leaves exactly one top-level statement: the `var`
declaration of `$` + id + `$exports` whose initializer is a function expression invoked through
`.call({})`; the function body is `var exports = this;`, `var module = {exports: this};`, the
body statements in their order, then `return module.exports;`.  For the module `eval("x+1")`
with id 3 the whole visitor gives that declaration around `eval("x+1")`. -/
theorem C3_envelope (path : ProgramPath) (asset : Asset)
    (h : truthy path.scope.getData = true) :
    (Program.exit path asset).1.node.body =
      [.VariableDeclaration "var" [.VariableDeclarator
        (.Identifier ("$" ++ toString asset.id ++ "$exports"))
        (some (.CallExpression
          (.MemberExpression
            (.FunctionExpression none [] ("exports" :: "module" :: path.node.bindings)
              ([.VariableDeclaration "var"
                  [.VariableDeclarator (.Identifier "exports") (some .ThisExpression)],
                .VariableDeclaration "var" [.VariableDeclarator (.Identifier "module")
                  (some (.ObjectExpression [.ObjectProperty "exports" .ThisExpression]))]]
                ++ path.node.body ++
                [.ReturnStatement (some (member (.Identifier "module") "exports"))]))
            (.Identifier "call") false)
          [.ObjectExpression []]))]] ∧
    (hoist ⟨[], [.ExpressionStatement
        (.CallExpression (.Identifier "eval") [.StringLiteral "x+1"])]⟩ ⟨3, [], false⟩).map
        (fun result => result.1.body) =
      some [.VariableDeclaration "var" [.VariableDeclarator (.Identifier "$3$exports")
        (some (.CallExpression
          (.MemberExpression
            (.FunctionExpression none [] ["exports", "module"]
              [.VariableDeclaration "var"
                  [.VariableDeclarator (.Identifier "exports") (some .ThisExpression)],
                .VariableDeclaration "var" [.VariableDeclarator (.Identifier "module")
                  (some (.ObjectExpression [.ObjectProperty "exports" .ThisExpression]))],
                .ExpressionStatement
                  (.CallExpression (.Identifier "eval") [.StringLiteral "x+1"]),
                .ReturnStatement (some (member (.Identifier "module") "exports"))])
            (.Identifier "call") false)
          [.ObjectExpression []]))]] := by
  constructor
  · simp [Program.exit, h, WRAPPER_TEMPLATE, getExportsIdentifier, member]
  · rfl

theorem C3_envelope_witness :
    truthy (Scope.mk .Program [] (some true) none).getData = true ∧
    (Program.exit ⟨⟨[], [.ExpressionStatement
        (.CallExpression (.Identifier "eval") [.StringLiteral "x+1"])]⟩,
        .mk .Program [] (some true) none⟩ ⟨3, [], false⟩).1.node.body.length = 1 :=
  ⟨by decide, by
    rw [(C3_envelope ⟨⟨[], [.ExpressionStatement
        (.CallExpression (.Identifier "eval") [.StringLiteral "x+1"])]⟩,
        .mk .Program [] (some true) none⟩ ⟨3, [], false⟩ (by decide)).1]
    rfl⟩

/-- C4 as stated fails: in the module `eval("x"); require("./a");` with id 3 and `./a` in the
dependency set (verdict true), the second statement inside the closure is `$3$require$a`, not
the original `require("./a")`. -/
theorem C4_require_rewritten_inside_envelope :
    (hoist ⟨[], [.ExpressionStatement (.CallExpression (.Identifier "eval") [.StringLiteral "x"]),
        .ExpressionStatement (requireCall "./a")]⟩ ⟨3, ["./a"], false⟩).map
        (fun result => result.1.body) =
      some [WRAPPER_TEMPLATE (.Identifier "$3$exports")
        [.ExpressionStatement (.CallExpression (.Identifier "eval") [.StringLiteral "x"]),
          .ExpressionStatement (.Identifier "$3$require$a")] ["exports", "module"]] ∧
    Node.ExpressionStatement (.Identifier "$3$require$a") ≠
      Node.ExpressionStatement (requireCall "./a") := by
  refine ⟨by rfl, ?_⟩
  intro e
  simp [requireCall] at e

/-- C4, amended: with verdict true the visitor returns, and the statements inside the closure,
between the two prologue declarations and the final `return module.exports`, are the module's
statements as the substitution pass leaves them, as many and in the same order; the pass
rewrites only calls of `require` and `require.resolve` there, so every original statement that
contains no such call is unchanged at its position. -/
theorem C4_envelope_body_frame (ast : Program) (asset : Asset) (h : hasTrigger ast = true) :
    ∃ body : List Node,
      visitList asset (.mk .Program ast.bindings (some true) none) ast.body = some body ∧
      (hoist ast asset).map (fun result => result.1.body) =
        some [WRAPPER_TEMPLATE (getExportsIdentifier asset) body
          ("exports" :: "module" :: ast.bindings)] ∧
      body.length = ast.body.length ∧
      ∀ (i : Nat) (statement : Node), ast.body[i]? = some statement →
        containsRequireCall statement = false → body[i]? = some statement := by
  have hs : truthy (Scope.mk .Program ast.bindings (some true) none).getData = true := by
    simp [Scope.getData, truthy]
  obtain ⟨body, hb⟩ := Option.isSome_iff_exists.1
    (visitList_wrapped_isSome asset ast.body (.mk .Program ast.bindings (some true) none) hs)
  refine ⟨body, hb, ?_, visitList_length _ _ _ _ hb, ?_⟩
  · rw [hoist_eq, h, hb]
    simp [Program.exit, Scope.getData, truthy]
  · intro i statement hi hc
    rw [visitList_getElem? _ _ _ _ i statement hb hi]
    exact visit_wrapped asset statement (.mk .Program ast.bindings (some true) none) .expression
      hs hc

theorem C4_envelope_body_frame_witness :
    hasTrigger ⟨[], [.ExpressionStatement
        (.CallExpression (.Identifier "eval") [.StringLiteral "x"]),
        .ExpressionStatement (requireCall "./a")]⟩ = true ∧
    ∃ body : List Node,
      visitList ⟨3, ["./a"], false⟩ (.mk .Program [] (some true) none)
        [.ExpressionStatement (.CallExpression (.Identifier "eval") [.StringLiteral "x"]),
          .ExpressionStatement (requireCall "./a")] = some body ∧
      body[0]? =
        some (.ExpressionStatement
          (.CallExpression (.Identifier "eval") [.StringLiteral "x"])) :=
  ⟨by decide,
    (C4_envelope_body_frame ⟨[], [.ExpressionStatement
        (.CallExpression (.Identifier "eval") [.StringLiteral "x"]),
        .ExpressionStatement (requireCall "./a")]⟩ ⟨3, ["./a"], false⟩ (by decide)).elim
      fun body hb => ⟨body, hb.1, hb.2.2.2 0 _ rfl (by decide)⟩⟩

/-- C5: with verdict false, after `Program.exit` the first top-level statement is
`var $id$exports = {}`, its declared name being the exports identifier and no `$id$var$` name;
the statements after it are the statements the module had, as many and in the same order, each
rewritten by the renames of the top-level bindings. -/
theorem C5_exports_declaration_first (path : ProgramPath) (asset : Asset)
    (h : truthy path.scope.getData = false) :
    (Program.exit path asset).1.node.body =
      .VariableDeclaration "var" [.VariableDeclarator
        (.Identifier ("$" ++ toString asset.id ++ "$exports")) (some (.ObjectExpression []))] ::
        (renameBindings path asset).node.body ∧
    (∀ x : String,
      "$" ++ toString asset.id ++ "$exports" ≠ "$" ++ toString asset.id ++ "$var$" ++ x) ∧
    (∃ pairs : List (String × String),
      (renameBindings path asset).node.body = path.node.body.map (renameAll pairs)) ∧
    (renameBindings path asset).node.body.length = path.node.body.length := by
  obtain ⟨pairs, hp⟩ := rename_fold_body asset path.scope.bindings path
  refine ⟨?_, ?_, ⟨pairs, hp⟩, ?_⟩
  · simp [Program.exit, h, EXPORTS_TEMPLATE, getExportsIdentifier]
  · intro x e
    have e2 := congrArg String.data e
    simp [String.data_append] at e2
  · simp only [renameBindings, hp, List.length_map]

theorem C5_exports_declaration_first_witness :
    truthy (Scope.mk .Program ["x"] (some false) none).getData = false ∧
    (Program.exit ⟨⟨["x"], [.VariableDeclaration "var"
        [.VariableDeclarator (.Identifier "x") (some (.NumericLiteral 1))]]⟩,
        .mk .Program ["x"] (some false) none⟩ ⟨3, [], false⟩).1.node.body =
      [.VariableDeclaration "var"
          [.VariableDeclarator (.Identifier "$3$exports") (some (.ObjectExpression []))],
        .VariableDeclaration "var"
          [.VariableDeclarator (.Identifier "$3$var$x") (some (.NumericLiteral 1))]] :=
  ⟨by decide, by
    rw [(C5_exports_declaration_first ⟨⟨["x"], [.VariableDeclaration "var"
        [.VariableDeclarator (.Identifier "x") (some (.NumericLiteral 1))]]⟩,
        .mk .Program ["x"] (some false) none⟩ ⟨3, [], false⟩ (by decide)).1]
    rfl⟩

/-! ## Running the pass twice -/

theorem UnaryExpression_some (path : Path) (replacement : Node)
    (h : UnaryExpression path = some replacement) :
    replacement = .StringLiteral "object" ∧ isTypeofModule path.node = true := by
  simp only [UnaryExpression] at h
  split at h
  · rename_i operator argument hn
    split at h
    · rename_i hc
      refine ⟨(Option.some.inj h).symm, ?_⟩
      rw [hn]
      cases argument <;> simp_all [isTypeofModule, isIdentifierNamed]
    · simp at h
  · simp at h

theorem replaceWith_some (slot : Slot) (replacement node : Node)
    (h : replaceWith slot replacement = some node) : node = replacement := by
  simp only [replaceWith] at h
  split at h
  · exact (Option.some.inj h).symm
  · simp at h

/-- A visited node that is an identifier or string literal of a name no visitor produces was
that node before the visit. -/
theorem visit_named (asset : Asset) (scope : Scope) (slot : Slot) (node node' : Node)
    (q : String) (hv : visit asset scope slot node = some node')
    (h : partName node' = some q)
    (hq₁ : q.data.head? ≠ some '$') (hq₂ : q ≠ "null") (hq₃ : q ≠ "object") :
    node' = node := by
  have hx : ∀ x : String, partName (.Identifier ("$" ++ x)) = some q → False := by
    intro x e
    simp only [partName, Option.some.injEq] at e
    exact dollar_ne x q hq₁ e
  have he : partName (getExportsIdentifier asset) = some q → False := by
    simp only [getExportsIdentifier, String.append_assoc]
    exact hx _
  cases node with
  | Identifier name =>
    simp only [visit] at hv
    cases hs : slot.referenced with
    | false =>
      simp only [hs] at hv
      exact (Option.some.inj hv).symm
    | true =>
      simp only [hs, if_true] at hv
      cases hr : ReferencedIdentifier ⟨.Identifier name, scope⟩ asset with
      | none =>
        simp only [hr] at hv
        exact (Option.some.inj hv).symm
      | some r =>
        simp only [hr] at hv
        have e := replaceWith_some _ _ _ hv
        subst e
        simp only [ReferencedIdentifier] at hr
        split at hr
        · rw [← Option.some.inj hr] at h
          exact (he h).elim
        · simp at hr
  | ThisExpression =>
    simp only [visit] at hv
    cases hr : ThisExpression ⟨.ThisExpression, scope⟩ asset with
    | none =>
      simp only [hr] at hv
      exact (Option.some.inj hv).symm
    | some r =>
      simp only [hr] at hv
      have e := replaceWith_some _ _ _ hv
      subst e
      simp only [ThisExpression] at hr
      split at hr
      · rw [← Option.some.inj hr] at h
        exact (he h).elim
      · simp at hr
  | MemberExpression object property computed =>
    simp only [visit] at hv
    cases hr : MemberExpression ⟨.MemberExpression object property computed, scope⟩ asset with
    | none =>
      simp only [hr, Option.bind_eq_some, Option.map_eq_some'] at hv
      obtain ⟨_, _, _, _, e⟩ := hv
      subst e
      simp [partName] at h
    | some r =>
      simp only [hr] at hv
      have e := replaceWith_some _ _ _ hv
      subst e
      rcases MemberExpression_some _ _ _ hr with e | e | e | e <;> subst e
      · exact (he h).elim
      · simp [partName] at h
      · simp only [partName, Option.some.injEq] at h
        exact (hq₂ h.symm).elim
      · simp [partName] at h
  | CallExpression callee args =>
    simp only [visit] at hv
    cases hr : CallExpression ⟨.CallExpression callee args, scope⟩ asset with
    | none =>
      simp only [hr, Option.bind_eq_some, Option.map_eq_some'] at hv
      obtain ⟨_, _, _, _, e⟩ := hv
      subst e
      simp [partName] at h
    | some r =>
      simp only [hr] at hv
      have e := replaceWith_some _ _ _ hv
      subst e
      obtain ⟨x, e⟩ := CallExpression_some _ _ _ hr
      subst e
      exact (hx x h).elim
  | UnaryExpression operator argument =>
    simp only [visit] at hv
    cases hr : UnaryExpression ⟨.UnaryExpression operator argument, scope⟩ with
    | none =>
      simp only [hr, Option.map_eq_some'] at hv
      obtain ⟨_, _, e⟩ := hv
      subst e
      simp [partName] at h
    | some r =>
      simp only [hr] at hv
      have e := replaceWith_some _ _ _ hv
      subst e
      obtain ⟨e, _⟩ := UnaryExpression_some _ _ hr
      subst e
      simp only [partName, Option.some.injEq] at h
      exact (hq₃ h.symm).elim
  | AssignmentExpression operator left right =>
    simp only [visit] at hv
    split at hv <;>
      simp only [Option.bind_eq_some, Option.map_eq_some'] at hv <;>
      obtain ⟨_, _, _, _, e⟩ := hv <;> subst e <;> simp [partName] at h
  | StringLiteral value =>
    simp only [visit] at hv
    exact (Option.some.inj hv).symm
  | NumericLiteral value =>
    simp only [visit] at hv
    exact (Option.some.inj hv).symm
  | NullLiteral =>
    simp only [visit] at hv
    exact (Option.some.inj hv).symm
  | ObjectProperty key value =>
    simp only [visit, Option.map_eq_some'] at hv
    obtain ⟨_, _, e⟩ := hv
    subst e
    simp [partName] at h
  | ObjectExpression properties =>
    simp only [visit, Option.map_eq_some'] at hv
    obtain ⟨_, _, e⟩ := hv
    subst e
    simp [partName] at h
  | FunctionExpression id params bindings body =>
    simp only [visit, Option.map_eq_some'] at hv
    obtain ⟨_, _, e⟩ := hv
    subst e
    simp [partName] at h
  | ExpressionStatement expression =>
    simp only [visit, Option.map_eq_some'] at hv
    obtain ⟨_, _, e⟩ := hv
    subst e
    simp [partName] at h
  | ReturnStatement argument =>
    simp only [visit, Option.map_eq_some'] at hv
    obtain ⟨_, _, e⟩ := hv
    subst e
    simp [partName] at h
  | VariableDeclarator id init =>
    simp only [visit, Option.bind_eq_some, Option.map_eq_some'] at hv
    obtain ⟨_, _, _, _, e⟩ := hv
    subst e
    simp [partName] at h
  | VariableDeclaration kind declarations =>
    simp only [visit, Option.map_eq_some'] at hv
    obtain ⟨_, _, e⟩ := hv
    subst e
    simp [partName] at h
  | FunctionDeclaration id params bindings body =>
    simp only [visit, Option.map_eq_some'] at hv
    obtain ⟨_, _, e⟩ := hv
    subst e
    simp [partName] at h
  | BlockStatement bindings body =>
    simp only [visit, Option.map_eq_some'] at hv
    obtain ⟨_, _, e⟩ := hv
    subst e
    simp [partName] at h
  | IfStatement test consequent alternate =>
    simp only [visit, Option.bind_eq_some, Option.map_eq_some'] at hv
    obtain ⟨_, _, _, _, _, _, e⟩ := hv
    subst e
    simp [partName] at h

theorem visit_member_inv (asset : Asset) (scope : Scope) (slot : Slot) (node : Node)
    (o' p' : Node) (c' : Bool)
    (h : visit asset scope slot node = some (.MemberExpression o' p' c')) :
    (∃ o p, node = .MemberExpression o p c' ∧ visit asset scope .expression o = some o' ∧
        visit asset scope (if c' then .expression else .property) p = some p') ∨
      (o' = .Identifier "require" ∧ p' = .Identifier "modules") := by
  cases node with
  | Identifier name =>
    simp only [visit] at h
    cases hs : slot.referenced with
    | false => simp [hs] at h
    | true =>
      simp only [hs, if_true] at h
      cases hv : ReferencedIdentifier ⟨.Identifier name, scope⟩ asset with
      | none => simp [hv, Option.bind_eq_some] at h
      | some r =>
        simp only [hv] at h
        have e := replaceWith_some _ _ _ h
        subst e
        simp only [ReferencedIdentifier] at hv
        split at hv
        · simp [getExportsIdentifier] at hv
        · simp at hv
  | ThisExpression =>
    simp only [visit] at h
    cases hv : ThisExpression ⟨.ThisExpression, scope⟩ asset with
    | none => simp [hv, Option.bind_eq_some] at h
    | some r =>
      simp only [hv] at h
      have e := replaceWith_some _ _ _ h
      subst e
      simp only [ThisExpression] at hv
      split at hv
      · simp [getExportsIdentifier] at hv
      · simp at hv
  | MemberExpression object property computed =>
    simp only [visit] at h
    cases hv : MemberExpression ⟨.MemberExpression object property computed, scope⟩ asset with
    | none =>
      simp only [hv, Option.bind_eq_some, Option.map_eq_some', Option.some.injEq,
        Node.MemberExpression.injEq] at h
      obtain ⟨o₁, h1, p₁, h2, e1, e2, e3⟩ := h
      subst e1 e2 e3
      exact Or.inl ⟨object, property, rfl, h1, h2⟩
    | some r =>
      simp only [hv] at h
      have e := replaceWith_some _ _ _ h
      subst e
      rcases MemberExpression_some _ _ _ hv with e | e | e | e
      · simp [getExportsIdentifier] at e
      · simp at e
      · simp at e
      · simp only [Node.MemberExpression.injEq] at e
        exact Or.inr ⟨e.1, e.2.1⟩
  | CallExpression callee args =>
    simp only [visit] at h
    cases hv : CallExpression ⟨.CallExpression callee args, scope⟩ asset with
    | none => simp [hv, Option.bind_eq_some] at h
    | some r =>
      simp only [hv] at h
      have e := replaceWith_some _ _ _ h
      subst e
      obtain ⟨x, e⟩ := CallExpression_some _ _ _ hv
      simp at e
  | UnaryExpression operator argument =>
    simp only [visit] at h
    cases hv : UnaryExpression ⟨.UnaryExpression operator argument, scope⟩ with
    | none => simp [hv, Option.bind_eq_some] at h
    | some r =>
      simp only [hv] at h
      have e := replaceWith_some _ _ _ h
      subst e
      obtain ⟨e, _⟩ := UnaryExpression_some _ _ hv
      simp at e
  | AssignmentExpression operator left right =>
    simp only [visit] at h
    split at h <;> simp [Option.bind_eq_some] at h
  | _ => simp [visit, Option.bind_eq_some] at h

theorem visit_stringLiteral_inv (asset : Asset) (scope : Scope) (slot : Slot)
    (node : Node) (v : String) (h : visit asset scope slot node = some (.StringLiteral v)) :
    node = .StringLiteral v ∨ isTypeofModule node = true := by
  cases node with
  | Identifier name =>
    simp only [visit] at h
    cases hs : slot.referenced with
    | false => simp [hs] at h
    | true =>
      simp only [hs, if_true] at h
      cases hv : ReferencedIdentifier ⟨.Identifier name, scope⟩ asset with
      | none => simp [hv, Option.bind_eq_some] at h
      | some r =>
        simp only [hv] at h
        have e := replaceWith_some _ _ _ h
        subst e
        simp only [ReferencedIdentifier] at hv
        split at hv
        · simp [getExportsIdentifier] at hv
        · simp at hv
  | StringLiteral value =>
    simp only [visit] at h
    exact Or.inl (Option.some.inj h)
  | ThisExpression =>
    simp only [visit] at h
    cases hv : ThisExpression ⟨.ThisExpression, scope⟩ asset with
    | none => simp [hv, Option.bind_eq_some] at h
    | some r =>
      simp only [hv] at h
      have e := replaceWith_some _ _ _ h
      subst e
      simp only [ThisExpression] at hv
      split at hv
      · simp [getExportsIdentifier] at hv
      · simp at hv
  | MemberExpression object property computed =>
    simp only [visit] at h
    cases hv : MemberExpression ⟨.MemberExpression object property computed, scope⟩ asset with
    | none => simp [hv, Option.bind_eq_some] at h
    | some r =>
      simp only [hv] at h
      have e := replaceWith_some _ _ _ h
      subst e
      rcases MemberExpression_some _ _ _ hv with e | e | e | e <;>
        simp [getExportsIdentifier] at e
  | CallExpression callee args =>
    simp only [visit] at h
    cases hv : CallExpression ⟨.CallExpression callee args, scope⟩ asset with
    | none => simp [hv, Option.bind_eq_some] at h
    | some r =>
      simp only [hv] at h
      have e := replaceWith_some _ _ _ h
      subst e
      obtain ⟨x, e⟩ := CallExpression_some _ _ _ hv
      simp at e
  | UnaryExpression operator argument =>
    simp only [visit] at h
    cases hv : UnaryExpression ⟨.UnaryExpression operator argument, scope⟩ with
    | none => simp [hv, Option.bind_eq_some] at h
    | some r =>
      obtain ⟨_, e⟩ := UnaryExpression_some _ _ hv
      exact Or.inr e
  | AssignmentExpression operator left right =>
    simp only [visit] at h
    split at h <;> simp [Option.bind_eq_some] at h
  | _ => simp [visit, Option.bind_eq_some] at h

/-- The names of a member chain, root first. -/
theorem chain_member (o p : Node) (c : Bool) :
    (memberChain (.MemberExpression o p c)).reverse.map partName =
      (memberChain o).reverse.map partName ++ [partName p] := by
  simp [memberChain]

theorem chain_length (node : Node) : (memberChain node).reverse.map partName ≠ [] := by
  cases node <;> simp [memberChain]

theorem chain_single (node : Node) (a : Option String)
    (h : (memberChain node).reverse.map partName = [a]) : partName node = a := by
  cases node with
  | MemberExpression o p c =>
    rw [chain_member] at h
    have h1 := chain_length o
    cases hm : (memberChain o).reverse.map partName with
    | nil => exact (h1 hm).elim
    | cons x l => rw [hm] at h; simp at h
  | _ => simpa [memberChain] using h

theorem matches_two (o p : Node) (c : Bool) (a b : String)
    (h : matchesPattern (.MemberExpression o p c) [a, b] = true) :
    partName o = some a ∧ partName p = some b := by
  simp only [matchesPattern, chain_member, beq_iff_eq, List.map] at h
  have h1 := chain_length o
  cases hm : (memberChain o).reverse.map partName with
  | nil => exact (h1 hm).elim
  | cons x l =>
    rw [hm] at h
    cases l with
    | nil =>
      simp at h
      exact ⟨by rw [chain_single o x hm, h.1], h.2⟩
    | cons y l => simp at h

theorem matches_three (o p : Node) (c : Bool) (a b d : String)
    (h : matchesPattern (.MemberExpression o p c) [a, b, d] = true) :
    ∃ o₂ p₂ c₂, o = .MemberExpression o₂ p₂ c₂ ∧ partName o₂ = some a ∧
      partName p₂ = some b ∧ partName p = some d := by
  simp only [matchesPattern, chain_member, beq_iff_eq, List.map] at h
  cases o with
  | MemberExpression o₂ p₂ c₂ =>
    rw [chain_member] at h
    have h1 := chain_length o₂
    cases hm : (memberChain o₂).reverse.map partName with
    | nil => exact (h1 hm).elim
    | cons x l =>
      rw [hm] at h
      cases l with
      | nil =>
        simp at h
        exact ⟨o₂, p₂, c₂, rfl, by rw [chain_single o₂ x hm, h.1], h.2.1, h.2.2⟩
      | cons y l =>
        simp at h
        have hl := congrArg List.length h.2.2
        simp at hl
  | _ => simp [memberChain] at h

theorem matchesPattern_member_only (node : Node) (parts : List String)
    (h : matchesPattern node parts = true) : ∃ o p c, node = .MemberExpression o p c := by
  cases node <;> simp [matchesPattern] at h
  exact ⟨_, _, _, rfl⟩

/-- If the visited children of a member access make one of the patterns the visitors look
for, the visit changed neither child. -/
theorem matches_visit_fixed (asset : Asset) (scope : Scope) (o p o' p' : Node) (c : Bool)
    (parts : List String)
    (hp : parts = ["module", "exports"] ∨ parts = ["module", "id"] ∨
      parts = ["module", "hot"] ∨ parts = ["module", "bundle", "modules"] ∨
      parts = ["require", "resolve"])
    (ho : visit asset scope .expression o = some o')
    (hpv : visit asset scope (if c then .expression else .property) p = some p')
    (h : matchesPattern (.MemberExpression o' p' c) parts = true) :
    o' = o ∧ p' = p := by
  rcases hp with e | e | e | e | e <;> subst e
  · obtain ⟨h1, h2⟩ := matches_two _ _ _ _ _ h
    exact ⟨visit_named _ _ _ _ _ _ ho h1 (by decide) (by decide) (by decide),
      visit_named _ _ _ _ _ _ hpv h2 (by decide) (by decide) (by decide)⟩
  · obtain ⟨h1, h2⟩ := matches_two _ _ _ _ _ h
    exact ⟨visit_named _ _ _ _ _ _ ho h1 (by decide) (by decide) (by decide),
      visit_named _ _ _ _ _ _ hpv h2 (by decide) (by decide) (by decide)⟩
  · obtain ⟨h1, h2⟩ := matches_two _ _ _ _ _ h
    exact ⟨visit_named _ _ _ _ _ _ ho h1 (by decide) (by decide) (by decide),
      visit_named _ _ _ _ _ _ hpv h2 (by decide) (by decide) (by decide)⟩
  · obtain ⟨o₂', p₂', c₂, e, h1, h2, h3⟩ := matches_three _ _ _ _ _ _ h
    refine ⟨?_, visit_named _ _ _ _ _ _ hpv h3 (by decide) (by decide) (by decide)⟩
    subst e
    rcases visit_member_inv _ _ _ _ _ _ _ ho with ⟨o₂, p₂, e, e1, e2⟩ | ⟨e1, _⟩
    · rw [e, visit_named _ _ _ _ _ _ e1 h1 (by decide) (by decide) (by decide),
        visit_named _ _ _ _ _ _ e2 h2 (by decide) (by decide) (by decide)]
    · subst e1
      simp [partName] at h1
  · obtain ⟨h1, h2⟩ := matches_two _ _ _ _ _ h
    exact ⟨visit_named _ _ _ _ _ _ ho h1 (by decide) (by decide) (by decide),
      visit_named _ _ _ _ _ _ hpv h2 (by decide) (by decide) (by decide)⟩

theorem matchesPattern_identifier (name : String) (parts : List String) :
    matchesPattern (.Identifier name) parts = false := rfl

theorem matchesPattern_numeric (value : Nat) (parts : List String) :
    matchesPattern (.NumericLiteral value) parts = false := rfl

theorem MemberExpression_none_iff (node : Node) (scope : Scope) (asset : Asset) :
    MemberExpression ⟨node, scope⟩ asset = none ↔
      (scope.hasBinding "module" false || truthy scope.getData) = true ∨
      (matchesPattern node ["module", "exports"] = false ∧
        matchesPattern node ["module", "id"] = false ∧
        matchesPattern node ["module", "hot"] = false ∧
        matchesPattern node ["module", "bundle", "modules"] = false) := by
  cases hg : (scope.hasBinding "module" false || truthy scope.getData) <;>
  cases h1 : matchesPattern node ["module", "exports"] <;>
  cases h2 : matchesPattern node ["module", "id"] <;>
  cases h3 : matchesPattern node ["module", "hot"] <;>
  cases h4 : matchesPattern node ["module", "bundle", "modules"] <;>
  simp [MemberExpression, hg, h1, h2, h3, h4, matchesPattern_identifier,
    matchesPattern_numeric, getExportsIdentifier]

theorem member_second_none (asset : Asset) (scope : Scope) (o p o' p' : Node) (c : Bool)
    (h : MemberExpression ⟨.MemberExpression o p c, scope⟩ asset = none)
    (ho : visit asset scope .expression o = some o')
    (hpv : visit asset scope (if c then .expression else .property) p = some p') :
    MemberExpression ⟨.MemberExpression o' p' c, scope⟩ asset = none := by
  rw [MemberExpression_none_iff] at h ⊢
  rcases h with h | ⟨h1, h2, h3, h4⟩
  · exact Or.inl h
  · right
    have key : ∀ parts : List String,
        (parts = ["module", "exports"] ∨ parts = ["module", "id"] ∨
          parts = ["module", "hot"] ∨ parts = ["module", "bundle", "modules"] ∨
          parts = ["require", "resolve"]) →
        matchesPattern (.MemberExpression o p c) parts = false →
        matchesPattern (.MemberExpression o' p' c) parts = false := by
      intro parts hp hf
      rw [Bool.eq_false_iff]
      intro ht
      obtain ⟨e1, e2⟩ := matches_visit_fixed asset scope o p o' p' c parts hp ho hpv ht
      rw [e1, e2, hf] at ht
      exact Bool.noConfusion ht
    exact ⟨key _ (by simp) h1, key _ (by simp) h2, key _ (by simp) h3, key _ (by simp) h4⟩

theorem isIdentifierNamed_eq (node : Node) (name : String)
    (h : isIdentifierNamed node name = true) : node = .Identifier name := by
  cases node <;> simp [isIdentifierNamed] at h
  rw [h]

theorem visit_of_isIdentifierNamed (asset : Asset) (scope : Scope) (slot : Slot)
    (node node' : Node) (name : String) (hn : name.data.head? ≠ some '$') (h₂ : name ≠ "null")
    (h₃ : name ≠ "object") (hv : visit asset scope slot node = some node')
    (h : isIdentifierNamed node' name = true) : node' = node :=
  visit_named asset scope slot node node' name hv
    (by rw [isIdentifierNamed_eq _ _ h]; rfl) hn h₂ h₃

theorem singleStringLiteral_visitList (asset : Asset) (scope : Scope) (args args' : List Node)
    (v : String) (hl : visitList asset scope args = some args')
    (h : singleStringLiteral args' = some v)
    (ht : singleTypeofModule args = false) : args = [.StringLiteral v] ∧ args' = args := by
  match args, hl, ht with
  | [], hl, _ =>
    simp [visitList] at hl
    subst hl
    simp [singleStringLiteral] at h
  | [a], hl, ht =>
    simp only [visitList, Option.bind_eq_some, Option.map_eq_some', Option.some.injEq] at hl
    obtain ⟨a', ha, l, hl, e⟩ := hl
    subst hl e
    cases a' <;> simp [singleStringLiteral] at h
    subst h
    rcases visit_stringLiteral_inv _ _ _ _ _ ha with e | e
    · subst e
      exact ⟨rfl, rfl⟩
    · simp [singleTypeofModule, e] at ht
  | a :: b :: rest, hl, _ =>
    simp only [visitList, Option.bind_eq_some, Option.map_eq_some', Option.some.injEq] at hl
    obtain ⟨a', _, l, ⟨b', _, l', _, e'⟩, e⟩ := hl
    subst e' e
    simp [singleStringLiteral] at h

theorem call_second_none (asset : Asset) (scope : Scope) (callee callee' : Node)
    (args args' : List Node)
    (h : CallExpression ⟨.CallExpression callee args, scope⟩ asset = none)
    (ht : singleTypeofModule args = false)
    (hc : visit asset scope .expression callee = some callee')
    (ha : visitList asset scope args = some args') :
    CallExpression ⟨.CallExpression callee' args', scope⟩ asset = none := by
  cases hs : singleStringLiteral args' with
  | none => simp [CallExpression, hs]
  | some v =>
    obtain ⟨_, ha'⟩ := singleStringLiteral_visitList _ _ _ _ _ ha hs ht
    cases hA : isIdentifierNamed callee' "require" with
    | true =>
      rw [visit_of_isIdentifierNamed _ _ _ _ _ _ (by decide) (by decide) (by decide) hc hA, ha']
      exact h
    | false =>
      cases hR : matchesPattern callee' ["require", "resolve"] with
      | true =>
        obtain ⟨o', p', c', he⟩ := matchesPattern_member_only _ _ hR
        subst he
        rcases visit_member_inv _ _ _ _ _ _ _ hc with ⟨o, p, e, e1, e2⟩ | ⟨e1, e2⟩
        · obtain ⟨f1, f2⟩ := matches_visit_fixed asset scope o p o' p' c' _ (by simp) e1 e2 hR
          rw [f1, f2, ← e, ha']
          exact h
        · subst e1 e2
          simp [matchesPattern, memberChain, partName] at hR
      | false => simp [CallExpression, hA, hR]

theorem unary_second_none (asset : Asset) (scope : Scope) (operator : String)
    (argument argument' : Node)
    (h : UnaryExpression ⟨.UnaryExpression operator argument, scope⟩ = none)
    (ha : visit asset scope .expression argument = some argument') :
    UnaryExpression ⟨.UnaryExpression operator argument', scope⟩ = none := by
  cases hA : isIdentifierNamed argument' "module" with
  | true =>
    rw [visit_of_isIdentifierNamed _ _ _ _ _ _ (by decide) (by decide) (by decide) ha hA]
    exact h
  | false => simp [UnaryExpression, hA]

theorem assignment_second_none (asset : Asset) (scope : Scope) (operator : String)
    (left right left' right' : Node)
    (h : AssignmentExpression ⟨.AssignmentExpression operator left right, scope⟩ asset = none)
    (hl : visit asset scope .lval left = some left') :
    AssignmentExpression ⟨.AssignmentExpression operator left' right', scope⟩ asset =
      none := by
  cases hA : isIdentifierNamed left' "exports" with
  | true =>
    have e := visit_of_isIdentifierNamed _ _ _ _ _ _ (by decide) (by decide) (by decide) hl hA
    subst e
    simp only [AssignmentExpression, hA] at h ⊢
    exact h
  | false => simp [AssignmentExpression, hA]

theorem assignment_replaced_none (asset : Asset) (scope : Scope) (operator : String)
    (left right x : Node)
    (h : AssignmentExpression ⟨.AssignmentExpression operator left right, scope⟩ asset =
      some x) (r : Node) :
    AssignmentExpression ⟨.AssignmentExpression operator x r, scope⟩ asset = none := by
  simp only [AssignmentExpression] at h
  split at h
  · rw [← Option.some.inj h]
    have hne : "$" ++ toString asset.id ++ "$exports" ≠ "exports" :=
      exportsName_ne asset.id "exports" (by decide)
    simp [AssignmentExpression, getExportsIdentifier, isIdentifierNamed, hne]
  · simp at h

mutual
theorem visit_twice (asset : Asset) :
    ∀ (node : Node) (scope : Scope) (slot : Slot) (node' : Node),
    noTypeofModuleArgument node = true → visit asset scope slot node = some node' →
    visit asset scope slot node' = some node'
  | .Identifier name, scope, slot, node', _, hv => by
    simp only [visit] at hv
    cases hs : slot.referenced with
    | false =>
      simp only [hs] at hv
      rw [← Option.some.inj hv]
      simp [visit, hs]
    | true =>
      simp only [hs, if_true] at hv
      cases hr : ReferencedIdentifier ⟨.Identifier name, scope⟩ asset with
      | none =>
        simp only [hr] at hv
        rw [← Option.some.inj hv]
        simp [visit, hs, hr]
      | some r =>
        simp only [hr] at hv
        rw [replaceWith_some _ _ _ hv]
        exact requeue_fixed asset ⟨.Identifier name, scope⟩ slot r
          (Or.inr (Or.inr (Or.inr (Or.inr (Or.inl hr)))))
  | .StringLiteral _, _, _, node', _, hv => by
    simp only [visit] at hv
    rw [← Option.some.inj hv]
    simp [visit]
  | .NumericLiteral _, _, _, node', _, hv => by
    simp only [visit] at hv
    rw [← Option.some.inj hv]
    simp [visit]
  | .NullLiteral, _, _, node', _, hv => by
    simp only [visit] at hv
    rw [← Option.some.inj hv]
    simp [visit]
  | .ThisExpression, scope, slot, node', _, hv => by
    simp only [visit] at hv
    cases hr : ThisExpression ⟨.ThisExpression, scope⟩ asset with
    | none =>
      simp only [hr] at hv
      rw [← Option.some.inj hv]
      simp [visit, hr]
    | some r =>
      simp only [hr] at hv
      rw [replaceWith_some _ _ _ hv]
      exact requeue_fixed asset ⟨.ThisExpression, scope⟩ slot r
        (Or.inr (Or.inr (Or.inr (Or.inl hr))))
  | .ObjectProperty _ value, scope, _, node', h, hv => by
    simp only [noTypeofModuleArgument] at h
    simp only [visit, Option.map_eq_some'] at hv
    obtain ⟨value', h1, e⟩ := hv
    subst e
    simp [visit, visit_twice asset value scope .expression value' h h1]
  | .ObjectExpression properties, scope, _, node', h, hv => by
    simp only [noTypeofModuleArgument] at h
    simp only [visit, Option.map_eq_some'] at hv
    obtain ⟨properties', h1, e⟩ := hv
    subst e
    simp [visit, visitList_twice asset properties scope properties' h h1]
  | .MemberExpression object property computed, scope, slot, node', h, hv => by
    simp only [noTypeofModuleArgument, Bool.and_eq_true] at h
    simp only [visit] at hv
    cases hr : MemberExpression ⟨.MemberExpression object property computed, scope⟩ asset with
    | none =>
      simp only [hr, Option.bind_eq_some, Option.map_eq_some'] at hv
      obtain ⟨object', h1, property', h2, e⟩ := hv
      subst e
      simp [visit, member_second_none asset scope object property object' property' computed
          hr h1 h2,
        visit_twice asset object scope .expression object' h.1 h1,
        visit_twice asset property scope (if computed then .expression else .property)
          property' h.2 h2]
    | some r =>
      simp only [hr] at hv
      rw [replaceWith_some _ _ _ hv]
      exact requeue_fixed asset ⟨.MemberExpression object property computed, scope⟩
        slot r (Or.inl hr)
  | .CallExpression callee args, scope, slot, node', h, hv => by
    simp only [noTypeofModuleArgument, Bool.and_eq_true, Bool.not_eq_true'] at h
    simp only [visit] at hv
    cases hr : CallExpression ⟨.CallExpression callee args, scope⟩ asset with
    | none =>
      simp only [hr, Option.bind_eq_some, Option.map_eq_some'] at hv
      obtain ⟨callee', h1, args', h2, e⟩ := hv
      subst e
      simp [visit, call_second_none asset scope callee callee' args args' hr h.1.1 h1 h2,
        visit_twice asset callee scope .expression callee' h.1.2 h1,
        visitList_twice asset args scope args' h.2 h2]
    | some r =>
      simp only [hr] at hv
      rw [replaceWith_some _ _ _ hv]
      exact requeue_fixed asset ⟨.CallExpression callee args, scope⟩ slot r
        (Or.inr (Or.inl hr))
  | .UnaryExpression operator argument, scope, slot, node', h, hv => by
    simp only [noTypeofModuleArgument] at h
    simp only [visit] at hv
    cases hr : UnaryExpression ⟨.UnaryExpression operator argument, scope⟩ with
    | none =>
      simp only [hr, Option.map_eq_some'] at hv
      obtain ⟨argument', h1, e⟩ := hv
      subst e
      simp [visit, unary_second_none asset scope operator argument argument' hr h1,
        visit_twice asset argument scope .expression argument' h h1]
    | some r =>
      simp only [hr] at hv
      rw [replaceWith_some _ _ _ hv]
      exact requeue_fixed asset ⟨.UnaryExpression operator argument, scope⟩ slot r
        (Or.inr (Or.inr (Or.inl hr)))
  | .AssignmentExpression operator left right, scope, _, node', h, hv => by
    simp only [noTypeofModuleArgument, Bool.and_eq_true] at h
    simp only [visit] at hv
    cases hr : AssignmentExpression ⟨.AssignmentExpression operator left right, scope⟩ asset with
    | none =>
      simp only [hr, Option.bind_eq_some, Option.map_eq_some'] at hv
      obtain ⟨left', h1, right', h2, e⟩ := hv
      subst e
      simp [visit, assignment_second_none asset scope operator left right left' right' hr h1,
        visit_twice asset left scope .lval left' h.1 h1,
        visit_twice asset right scope .expression right' h.2 h2]
    | some x =>
      simp only [hr, Option.bind_eq_some, Option.map_eq_some'] at hv
      obtain ⟨left', h1, right', h2, e⟩ := hv
      subst e
      have e := replaceWith_some _ _ _ h1
      subst e
      simp [visit, assignment_replaced_none asset scope operator left right left' hr,
        visit_twice asset right scope .expression right' h.2 h2,
        requeue_fixed asset ⟨.AssignmentExpression operator left right, scope⟩ .lval left'
          (Or.inr (Or.inr (Or.inr (Or.inr (Or.inr hr)))))]
  | .FunctionExpression _ _ bindings body, scope, _, node', h, hv => by
    simp only [noTypeofModuleArgument] at h
    simp only [visit, Option.map_eq_some'] at hv
    obtain ⟨body', h1, e⟩ := hv
    subst e
    simp [visit, visitList_twice asset body (scope.child .Function bindings) body' h h1]
  | .ExpressionStatement expression, scope, _, node', h, hv => by
    simp only [noTypeofModuleArgument] at h
    simp only [visit, Option.map_eq_some'] at hv
    obtain ⟨expression', h1, e⟩ := hv
    subst e
    simp [visit, visit_twice asset expression scope .expression expression' h h1]
  | .ReturnStatement argument, scope, _, node', h, hv => by
    simp only [noTypeofModuleArgument] at h
    simp only [visit, Option.map_eq_some'] at hv
    obtain ⟨argument', h1, e⟩ := hv
    subst e
    simp [visit, visitOption_twice asset argument scope argument' h h1]
  | .VariableDeclarator id init, scope, _, node', h, hv => by
    simp only [noTypeofModuleArgument, Bool.and_eq_true] at h
    simp only [visit, Option.bind_eq_some, Option.map_eq_some'] at hv
    obtain ⟨id', h1, init', h2, e⟩ := hv
    subst e
    simp [visit, visit_twice asset id scope .lval id' h.1 h1,
      visitOption_twice asset init scope init' h.2 h2]
  | .VariableDeclaration _ declarations, scope, _, node', h, hv => by
    simp only [noTypeofModuleArgument] at h
    simp only [visit, Option.map_eq_some'] at hv
    obtain ⟨declarations', h1, e⟩ := hv
    subst e
    simp [visit, visitList_twice asset declarations scope declarations' h h1]
  | .FunctionDeclaration _ _ bindings body, scope, _, node', h, hv => by
    simp only [noTypeofModuleArgument] at h
    simp only [visit, Option.map_eq_some'] at hv
    obtain ⟨body', h1, e⟩ := hv
    subst e
    simp [visit, visitList_twice asset body (scope.child .Function bindings) body' h h1]
  | .BlockStatement bindings body, scope, _, node', h, hv => by
    simp only [noTypeofModuleArgument] at h
    simp only [visit, Option.map_eq_some'] at hv
    obtain ⟨body', h1, e⟩ := hv
    subst e
    simp [visit, visitList_twice asset body (scope.child .Block bindings) body' h h1]
  | .IfStatement test consequent alternate, scope, _, node', h, hv => by
    simp only [noTypeofModuleArgument, Bool.and_eq_true] at h
    simp only [visit, Option.bind_eq_some, Option.map_eq_some'] at hv
    obtain ⟨test', h1, consequent', h2, alternate', h3, e⟩ := hv
    subst e
    simp [visit, visit_twice asset test scope .expression test' h.1.1 h1,
      visit_twice asset consequent scope .expression consequent' h.1.2 h2,
      visitOption_twice asset alternate scope alternate' h.2 h3]
theorem visitList_twice (asset : Asset) :
    ∀ (nodes : List Node) (scope : Scope) (nodes' : List Node),
    noTypeofModuleArgumentList nodes = true → visitList asset scope nodes = some nodes' →
    visitList asset scope nodes' = some nodes'
  | [], _, nodes', _, hv => by
    simp only [visitList] at hv
    rw [← Option.some.inj hv]
    simp [visitList]
  | node :: nodes, scope, nodes', h, hv => by
    simp only [noTypeofModuleArgumentList, Bool.and_eq_true] at h
    simp only [visitList, Option.bind_eq_some, Option.map_eq_some'] at hv
    obtain ⟨first, h1, rest, h2, e⟩ := hv
    subst e
    simp [visitList, visit_twice asset node scope .expression first h.1 h1,
      visitList_twice asset nodes scope rest h.2 h2]
theorem visitOption_twice (asset : Asset) :
    ∀ (node : Option Node) (scope : Scope) (node' : Option Node),
    noTypeofModuleArgumentOption node = true → visitOption asset scope node = some node' →
    visitOption asset scope node' = some node'
  | none, _, node', _, hv => by
    simp only [visitOption] at hv
    rw [← Option.some.inj hv]
    simp [visitOption]
  | some node, scope, node', h, hv => by
    simp only [noTypeofModuleArgumentOption] at h
    simp only [visitOption, Option.map_eq_some'] at hv
    obtain ⟨first, h1, e⟩ := hv
    subst e
    simp [visitOption, visit_twice asset node scope .expression first h h1]
end

/-- C14 as stated fails: on `require.resolve(typeof module)` (id 3, verdict false, nothing
shadowed) the first pass gives `require.resolve("object")`, and a second pass replaces that
call by `$3$require_resolve$object`. -/
theorem C14_second_pass_changes_tree :
    visit ⟨3, [], false⟩ (.mk .Program [] (some false) none) .expression
        (.CallExpression (member (.Identifier "require") "resolve") [typeofModule]) =
      some (requireResolveCall "object") ∧
    (visit ⟨3, [], false⟩ (.mk .Program [] (some false) none) .expression
        (.CallExpression (member (.Identifier "require") "resolve") [typeofModule])).bind
        (visit ⟨3, [], false⟩ (.mk .Program [] (some false) none) .expression) =
      some (.Identifier "$3$require_resolve$object") ∧
    requireResolveCall "object" ≠ Node.Identifier "$3$require_resolve$object" := by
  refine ⟨by rfl, by rfl, ?_⟩
  intro e
  simp [requireResolveCall] at e

/-- C14, amended: for every tree in which no call expression has `typeof module` as its only
argument, applying the substitution pass a second time to what the first application returns,
with the same asset, scope, position and verdict, returns that tree unchanged; this holds for
single nodes and for statement lists. -/
theorem C14_pass_idempotent (asset : Asset) (scope : Scope) (slot : Slot) (node : Node)
    (h : noTypeofModuleArgument node = true) :
    (visit asset scope slot node).bind (visit asset scope slot) = visit asset scope slot node ∧
    ∀ nodes : List Node, noTypeofModuleArgumentList nodes = true →
      (visitList asset scope nodes).bind (visitList asset scope) =
        visitList asset scope nodes := by
  constructor
  · cases hv : visit asset scope slot node with
    | none => rfl
    | some node' => exact visit_twice asset node scope slot node' h hv
  · intro nodes hn
    cases hv : visitList asset scope nodes with
    | none => rfl
    | some nodes' => exact visitList_twice asset nodes scope nodes' hn hv

theorem C14_pass_idempotent_witness :
    noTypeofModuleArgument (.AssignmentExpression "=" (member (.Identifier "module") "exports")
      (requireCall "./a")) = true ∧
    (visit ⟨3, ["./a"], false⟩ (.mk .Program [] (some false) none) .expression
        (.AssignmentExpression "=" (member (.Identifier "module") "exports")
          (requireCall "./a"))).bind
        (visit ⟨3, ["./a"], false⟩ (.mk .Program [] (some false) none) .expression) =
      visit ⟨3, ["./a"], false⟩ (.mk .Program [] (some false) none) .expression
        (.AssignmentExpression "=" (member (.Identifier "module") "exports")
          (requireCall "./a")) :=
  ⟨by decide,
    (C14_pass_idempotent ⟨3, ["./a"], false⟩ (.mk .Program [] (some false) none) .expression
      (.AssignmentExpression "=" (member (.Identifier "module") "exports") (requireCall "./a"))
      (by decide)).1⟩

/-! ## The rename loop against the renaming of all top-level bindings at once -/

mutual
theorem renameTop_shadowed (id : Nat) (done : List String) (x : String) :
    ∀ (node : Node) (shadowed : List String) (referenced : Bool), x ∈ shadowed →
    renameTop id (done ++ [x]) shadowed referenced node =
      renameTop id done shadowed referenced node
  | .Identifier name, shadowed, referenced, h => by
    by_cases e : name = x
    · subst e
      simp [renameTop, h]
    · simp [renameTop, e]
  | .StringLiteral _, _, _, _ => by simp [renameTop]
  | .NumericLiteral _, _, _, _ => by simp [renameTop]
  | .NullLiteral, _, _, _ => by simp [renameTop]
  | .ThisExpression, _, _, _ => by simp [renameTop]
  | .ObjectProperty _ value, shadowed, _, h => by
    simp [renameTop, renameTop_shadowed id done x value shadowed true h]
  | .ObjectExpression properties, shadowed, _, h => by
    simp [renameTop, renameTopList_shadowed id done x properties shadowed h]
  | .MemberExpression object property computed, shadowed, _, h => by
    simp [renameTop, renameTop_shadowed id done x object shadowed true h,
      renameTop_shadowed id done x property shadowed computed h]
  | .CallExpression callee args, shadowed, _, h => by
    simp [renameTop, renameTop_shadowed id done x callee shadowed true h,
      renameTopList_shadowed id done x args shadowed h]
  | .UnaryExpression _ argument, shadowed, _, h => by
    simp [renameTop, renameTop_shadowed id done x argument shadowed true h]
  | .AssignmentExpression _ left right, shadowed, _, h => by
    simp [renameTop, renameTop_shadowed id done x left shadowed true h,
      renameTop_shadowed id done x right shadowed true h]
  | .FunctionExpression _ _ bindings body, shadowed, _, h => by
    simp [renameTop, renameTopList_shadowed id done x body (bindings ++ shadowed)
      (by simp [h])]
  | .ExpressionStatement expression, shadowed, _, h => by
    simp [renameTop, renameTop_shadowed id done x expression shadowed true h]
  | .ReturnStatement argument, shadowed, _, h => by
    simp [renameTop, renameTopOption_shadowed id done x argument shadowed h]
  | .VariableDeclarator vid init, shadowed, _, h => by
    simp [renameTop, renameTop_shadowed id done x vid shadowed true h,
      renameTopOption_shadowed id done x init shadowed h]
  | .VariableDeclaration _ declarations, shadowed, _, h => by
    simp [renameTop, renameTopList_shadowed id done x declarations shadowed h]
  | .FunctionDeclaration fid _ bindings body, shadowed, _, h => by
    have hb := renameTopList_shadowed id done x body (bindings ++ shadowed) (by simp [h])
    by_cases e : fid = x
    · subst e
      simp [renameTop, h, hb]
    · simp [renameTop, e, hb]
  | .BlockStatement bindings body, shadowed, _, h => by
    simp [renameTop, renameTopList_shadowed id done x body (bindings ++ shadowed)
      (by simp [h])]
  | .IfStatement test consequent alternate, shadowed, _, h => by
    simp [renameTop, renameTop_shadowed id done x test shadowed true h,
      renameTop_shadowed id done x consequent shadowed true h,
      renameTopOption_shadowed id done x alternate shadowed h]
theorem renameTopList_shadowed (id : Nat) (done : List String) (x : String) :
    ∀ (nodes : List Node) (shadowed : List String), x ∈ shadowed →
    renameTopList id (done ++ [x]) shadowed nodes = renameTopList id done shadowed nodes
  | [], _, _ => by simp [renameTopList]
  | node :: nodes, shadowed, h => by
    simp [renameTopList, renameTop_shadowed id done x node shadowed true h,
      renameTopList_shadowed id done x nodes shadowed h]
theorem renameTopOption_shadowed (id : Nat) (done : List String) (x : String) :
    ∀ (node : Option Node) (shadowed : List String), x ∈ shadowed →
    renameTopOption id (done ++ [x]) shadowed node = renameTopOption id done shadowed node
  | none, _, _ => by simp [renameTopOption]
  | some node, shadowed, h => by
    simp [renameTopOption, renameTop_shadowed id done x node shadowed true h]
end

mutual
theorem rename_step (id : Nat) (done : List String) (x : String) (hx : x ∉ done)
    (hd : ∀ d ∈ done, x ≠ "$" ++ toString id ++ "$var$" ++ d) :
    ∀ (node : Node) (shadowed : List String) (referenced : Bool), x ∉ shadowed →
    rename x ("$" ++ toString id ++ "$var$" ++ x) referenced
        (renameTop id done shadowed referenced node) =
      renameTop id (done ++ [x]) shadowed referenced node
  | .Identifier name, shadowed, referenced, h => by
    by_cases e : name = x
    · subst e
      simp [renameTop, rename, hx, h]
    · by_cases hm : name ∈ done
      · have := hd name hm
        by_cases hs : name ∈ shadowed <;> cases referenced <;>
          simp [renameTop, rename, e, hm, hs, Ne.symm this]
      · simp [renameTop, rename, e, hm]
  | .StringLiteral _, _, _, _ => by simp [renameTop, rename]
  | .NumericLiteral _, _, _, _ => by simp [renameTop, rename]
  | .NullLiteral, _, _, _ => by simp [renameTop, rename]
  | .ThisExpression, _, _, _ => by simp [renameTop, rename]
  | .ObjectProperty _ value, shadowed, _, h => by
    simp [renameTop, rename, rename_step id done x hx hd value shadowed true h]
  | .ObjectExpression properties, shadowed, _, h => by
    simp [renameTop, rename, renameList_step id done x hx hd properties shadowed h]
  | .MemberExpression object property computed, shadowed, _, h => by
    simp [renameTop, rename, rename_step id done x hx hd object shadowed true h,
      rename_step id done x hx hd property shadowed computed h]
  | .CallExpression callee args, shadowed, _, h => by
    simp [renameTop, rename, rename_step id done x hx hd callee shadowed true h,
      renameList_step id done x hx hd args shadowed h]
  | .UnaryExpression _ argument, shadowed, _, h => by
    simp [renameTop, rename, rename_step id done x hx hd argument shadowed true h]
  | .AssignmentExpression _ left right, shadowed, _, h => by
    simp [renameTop, rename, rename_step id done x hx hd left shadowed true h,
      rename_step id done x hx hd right shadowed true h]
  | .FunctionExpression _ _ bindings body, shadowed, _, h => by
    by_cases hb : x ∈ bindings
    · simp [renameTop, rename, hb,
        renameTopList_shadowed id done x body (bindings ++ shadowed) (by simp [hb])]
    · simp [renameTop, rename, hb,
        renameList_step id done x hx hd body (bindings ++ shadowed) (by simp [hb, h])]
  | .ExpressionStatement expression, shadowed, _, h => by
    simp [renameTop, rename, rename_step id done x hx hd expression shadowed true h]
  | .ReturnStatement argument, shadowed, _, h => by
    simp [renameTop, rename, renameOption_step id done x hx hd argument shadowed h]
  | .VariableDeclarator vid init, shadowed, _, h => by
    simp [renameTop, rename, rename_step id done x hx hd vid shadowed true h,
      renameOption_step id done x hx hd init shadowed h]
  | .VariableDeclaration _ declarations, shadowed, _, h => by
    simp [renameTop, rename, renameList_step id done x hx hd declarations shadowed h]
  | .FunctionDeclaration fid _ bindings body, shadowed, _, h => by
    have hid : (if (if (done.contains fid && !shadowed.contains fid) = true
          then "$" ++ toString id ++ "$var$" ++ fid else fid) = x
        then "$" ++ toString id ++ "$var$" ++ x
        else (if (done.contains fid && !shadowed.contains fid) = true
          then "$" ++ toString id ++ "$var$" ++ fid else fid)) =
        (if ((done ++ [x]).contains fid && !shadowed.contains fid) = true
          then "$" ++ toString id ++ "$var$" ++ fid else fid) := by
      by_cases e : fid = x
      · subst e
        simp [hx, h]
      · by_cases hm : fid ∈ done
        · have := hd fid hm
          by_cases hs : fid ∈ shadowed <;> simp [e, hm, hs, Ne.symm this]
        · simp [e, hm]
    by_cases hb : x ∈ bindings
    · simp only [renameTop, rename, hid]
      simp [hb, renameTopList_shadowed id done x body (bindings ++ shadowed) (by simp [hb])]
    · simp only [renameTop, rename, hid]
      simp [hb, renameList_step id done x hx hd body (bindings ++ shadowed) (by simp [hb, h])]
  | .BlockStatement bindings body, shadowed, _, h => by
    by_cases hb : x ∈ bindings
    · simp [renameTop, rename, hb,
        renameTopList_shadowed id done x body (bindings ++ shadowed) (by simp [hb])]
    · simp [renameTop, rename, hb,
        renameList_step id done x hx hd body (bindings ++ shadowed) (by simp [hb, h])]
  | .IfStatement test consequent alternate, shadowed, _, h => by
    simp [renameTop, rename, rename_step id done x hx hd test shadowed true h,
      rename_step id done x hx hd consequent shadowed true h,
      renameOption_step id done x hx hd alternate shadowed h]
theorem renameList_step (id : Nat) (done : List String) (x : String) (hx : x ∉ done)
    (hd : ∀ d ∈ done, x ≠ "$" ++ toString id ++ "$var$" ++ d) :
    ∀ (nodes : List Node) (shadowed : List String), x ∉ shadowed →
    renameList x ("$" ++ toString id ++ "$var$" ++ x) (renameTopList id done shadowed nodes) =
      renameTopList id (done ++ [x]) shadowed nodes
  | [], _, _ => by simp [renameTopList, renameList]
  | node :: nodes, shadowed, h => by
    simp [renameTopList, renameList, rename_step id done x hx hd node shadowed true h,
      renameList_step id done x hx hd nodes shadowed h]
theorem renameOption_step (id : Nat) (done : List String) (x : String) (hx : x ∉ done)
    (hd : ∀ d ∈ done, x ≠ "$" ++ toString id ++ "$var$" ++ d) :
    ∀ (node : Option Node) (shadowed : List String), x ∉ shadowed →
    renameOption x ("$" ++ toString id ++ "$var$" ++ x)
        (renameTopOption id done shadowed node) =
      renameTopOption id (done ++ [x]) shadowed node
  | none, _, _ => by simp [renameTopOption, renameOption]
  | some node, shadowed, h => by
    simp [renameTopOption, renameOption, rename_step id done x hx hd node shadowed true h]
end

theorem varName_inj (id : Nat) (a b : String)
    (h : "$" ++ toString id ++ "$var$" ++ a = "$" ++ toString id ++ "$var$" ++ b) : a = b := by
  have e := congrArg String.data h
  simp only [String.data_append, List.append_cancel_left_eq] at e
  exact String.ext e

theorem bindings_withBindings (scope : Scope) (bindings : List String) :
    (scope.withBindings bindings).bindings = bindings := by
  cases scope
  rfl

theorem rename_loop (asset : Asset) (body₀ : List Node) :
    ∀ (rest done : List String) (path : ProgramPath),
    path.scope.bindings =
      rest ++ done.map (fun x => "$" ++ toString asset.id ++ "$var$" ++ x) →
    path.node.body = renameTopList asset.id done [] body₀ →
    (done ++ rest).Nodup →
    (∀ a ∈ done ++ rest, ∀ b ∈ done ++ rest, b ≠ "$" ++ toString asset.id ++ "$var$" ++ a) →
    (rest.foldl (fun path name =>
        path.rename name ("$" ++ toString asset.id ++ "$var$" ++ name)) path).scope.bindings =
      (done ++ rest).map (fun x => "$" ++ toString asset.id ++ "$var$" ++ x) ∧
    (rest.foldl (fun path name =>
        path.rename name ("$" ++ toString asset.id ++ "$var$" ++ name)) path).node.body =
      renameTopList asset.id (done ++ rest) [] body₀
  | [], done, path, hb, hbody, _, _ => by
    simpa using ⟨hb, hbody⟩
  | x :: rest, done, path, hb, hbody, hn, hc => by
    have hxd : x ∉ done := by
      intro hm
      have := List.nodup_append.1 hn
      exact this.2.2 hm (by simp)
    have hxr : x ∉ rest := by
      have := (List.nodup_append.1 hn).2.1
      exact (List.nodup_cons.1 this).1
    have hmem : x ∈ path.scope.bindings := by simp [hb]
    have hfilter : (path.scope.bindings.filter
        (fun b => b ≠ x && b ≠ "$" ++ toString asset.id ++ "$var$" ++ x)) =
        rest ++ done.map (fun x => "$" ++ toString asset.id ++ "$var$" ++ x) := by
      rw [hb]
      simp only [List.cons_append, List.filter_cons, ne_eq, not_true_eq_false, decide_False,
        Bool.false_and, Bool.false_eq_true, if_false]
      apply List.filter_eq_self.2
      intro b hbm
      rcases List.mem_append.1 hbm with hbr | hbd
      · have h1 : b ≠ x := fun e => hxr (e ▸ hbr)
        have h2 : b ≠ "$" ++ toString asset.id ++ "$var$" ++ x :=
          hc x (by simp) b (by simp [hbr])
        simp [h1, h2]
      · obtain ⟨d, hdm, rfl⟩ := List.mem_map.1 hbd
        have h1 : "$" ++ toString asset.id ++ "$var$" ++ d ≠ x :=
          fun e => hc d (by simp [hdm]) x (by simp) e.symm
        have h2 : "$" ++ toString asset.id ++ "$var$" ++ d ≠
            "$" ++ toString asset.id ++ "$var$" ++ x :=
          fun e => hxd (varName_inj asset.id d x e ▸ hdm)
        simp [h1, h2]
    have hren : path.rename x ("$" ++ toString asset.id ++ "$var$" ++ x) =
        { node :=
            { bindings := rest ++ (done ++ [x]).map
                (fun x => "$" ++ toString asset.id ++ "$var$" ++ x)
              body := renameList x ("$" ++ toString asset.id ++ "$var$" ++ x) path.node.body }
          scope := path.scope.withBindings (rest ++ (done ++ [x]).map
            (fun x => "$" ++ toString asset.id ++ "$var$" ++ x)) } := by
      simp only [ProgramPath.rename, List.elem_eq_mem, decide_eq_true_eq, hmem, if_true,
        hfilter]
      simp
    have hstep := rename_loop asset body₀ rest (done ++ [x])
      (path.rename x ("$" ++ toString asset.id ++ "$var$" ++ x))
      (by rw [hren, bindings_withBindings])
      (by
        rw [hren, hbody]
        exact renameList_step asset.id done x hxd
          (fun d hdm => hc d (by simp [hdm]) x (by simp)) body₀ [] (by simp))
      (by simpa using hn)
      (by simpa using hc)
    simpa using hstep

mutual
theorem renameTop_nil (id : Nat) : ∀ (node : Node) (shadowed : List String) (referenced : Bool),
    renameTop id [] shadowed referenced node = node
  | .Identifier _, _, _ => by simp [renameTop]
  | .StringLiteral _, _, _ => by simp [renameTop]
  | .NumericLiteral _, _, _ => by simp [renameTop]
  | .NullLiteral, _, _ => by simp [renameTop]
  | .ThisExpression, _, _ => by simp [renameTop]
  | .ObjectProperty _ value, shadowed, _ => by
    simp [renameTop, renameTop_nil id value shadowed true]
  | .ObjectExpression properties, shadowed, _ => by
    simp [renameTop, renameTopList_nil id properties shadowed]
  | .MemberExpression object property computed, shadowed, _ => by
    simp [renameTop, renameTop_nil id object shadowed true,
      renameTop_nil id property shadowed computed]
  | .CallExpression callee args, shadowed, _ => by
    simp [renameTop, renameTop_nil id callee shadowed true, renameTopList_nil id args shadowed]
  | .UnaryExpression _ argument, shadowed, _ => by
    simp [renameTop, renameTop_nil id argument shadowed true]
  | .AssignmentExpression _ left right, shadowed, _ => by
    simp [renameTop, renameTop_nil id left shadowed true, renameTop_nil id right shadowed true]
  | .FunctionExpression _ _ bindings body, shadowed, _ => by
    simp [renameTop, renameTopList_nil id body (bindings ++ shadowed)]
  | .ExpressionStatement expression, shadowed, _ => by
    simp [renameTop, renameTop_nil id expression shadowed true]
  | .ReturnStatement argument, shadowed, _ => by
    simp [renameTop, renameTopOption_nil id argument shadowed]
  | .VariableDeclarator vid init, shadowed, _ => by
    simp [renameTop, renameTop_nil id vid shadowed true, renameTopOption_nil id init shadowed]
  | .VariableDeclaration _ declarations, shadowed, _ => by
    simp [renameTop, renameTopList_nil id declarations shadowed]
  | .FunctionDeclaration _ _ bindings body, shadowed, _ => by
    simp [renameTop, renameTopList_nil id body (bindings ++ shadowed)]
  | .BlockStatement bindings body, shadowed, _ => by
    simp [renameTop, renameTopList_nil id body (bindings ++ shadowed)]
  | .IfStatement test consequent alternate, shadowed, _ => by
    simp [renameTop, renameTop_nil id test shadowed true,
      renameTop_nil id consequent shadowed true, renameTopOption_nil id alternate shadowed]
theorem renameTopList_nil (id : Nat) : ∀ (nodes : List Node) (shadowed : List String),
    renameTopList id [] shadowed nodes = nodes
  | [], _ => by simp [renameTopList]
  | node :: nodes, shadowed => by
    simp [renameTopList, renameTop_nil id node shadowed true,
      renameTopList_nil id nodes shadowed]
theorem renameTopOption_nil (id : Nat) : ∀ (node : Option Node) (shadowed : List String),
    renameTopOption id [] shadowed node = node
  | none, _ => by simp [renameTopOption]
  | some node, shadowed => by
    simp [renameTopOption, renameTop_nil id node shadowed true]
end

/-- With verdict false, when no top-level binding is itself named `$id$var$y` for a top-level
binding `y` (the binding names being distinct), after `Program.exit` the top-level bindings are
named `$id$var$x`, one for each original name `x`, and the statements after the exports
declaration are the module's statements under the scope-aware renaming of all top-level
bindings at once: a reference, assignment target or declared name `x` becomes `$id$var$x` where
`x` is a top-level binding shadowed by no nested scope, and keeps its name where a nested scope
binds `x` or `x` is no top-level binding; nested scopes keep their bindings. -/
theorem top_level_bindings_renamed (path : ProgramPath) (asset : Asset)
    (hw : truthy path.scope.getData = false)
    (hn : path.scope.bindings.Nodup)
    (hc : ∀ x ∈ path.scope.bindings, ∀ y ∈ path.scope.bindings,
      y ≠ "$" ++ toString asset.id ++ "$var$" ++ x) :
    (Program.exit path asset).1.scope.bindings =
      path.scope.bindings.map (fun x => "$" ++ toString asset.id ++ "$var$" ++ x) ∧
    (Program.exit path asset).1.node.body =
      EXPORTS_TEMPLATE (getExportsIdentifier asset) ::
        renameTopList asset.id path.scope.bindings [] path.node.body ∧
    (∀ (x : String) (shadowed : List String), x ∈ path.scope.bindings → x ∉ shadowed →
      renameTop asset.id path.scope.bindings shadowed true (.Identifier x) =
        .Identifier ("$" ++ toString asset.id ++ "$var$" ++ x)) ∧
    (∀ (x : String) (shadowed : List String) (referenced : Bool), x ∈ shadowed →
      renameTop asset.id path.scope.bindings shadowed referenced (.Identifier x) =
        .Identifier x) ∧
    (∀ (x : String) (shadowed : List String) (referenced : Bool), x ∉ path.scope.bindings →
      renameTop asset.id path.scope.bindings shadowed referenced (.Identifier x) =
        .Identifier x) ∧
    (∀ (fid : Option String) (params bindings shadowed : List String) (body : List Node)
      (referenced : Bool),
      renameTop asset.id path.scope.bindings shadowed referenced
          (.FunctionExpression fid params bindings body) =
        .FunctionExpression fid params bindings
          (renameTopList asset.id path.scope.bindings (bindings ++ shadowed) body)) := by
  have hl := rename_loop asset path.node.body path.scope.bindings [] path
    (by simp) (renameTopList_nil asset.id path.node.body []).symm (by simpa using hn)
    (by simpa using hc)
  simp only [List.nil_append] at hl
  refine ⟨?_, ?_, ?_, ?_, ?_, ?_⟩
  · simp only [Program.exit, hw, Bool.false_eq_true, if_false, renameBindings]
    exact hl.1
  · simp only [Program.exit, hw, Bool.false_eq_true, if_false, renameBindings]
    rw [hl.2]
  · intro x shadowed hx hs
    simp [renameTop, hx, hs]
  · intro x shadowed referenced hs
    simp [renameTop, hs]
  · intro x shadowed referenced hx
    simp [renameTop, hx]
  · intro fid params bindings shadowed body referenced
    simp [renameTop]

/-- C6: the code does not do what the claim (and the comment above the loop, "Rename each
binding in the top-level scope to something unique") says.  In the module
`var x = 1; var $3$var$x = 2; x;` of asset 3 (verdict false, no dependencies) the loop renames
`x` to `$3$var$x` and then renames every `$3$var$x`: the whole visitor leaves two declarations
of the one name `$3$var$$3$var$x` and one binding of that name in the scope: the binding that
was `x` is not named `$3$var$x`, and the two bindings no longer have names of their own. -/
theorem C6_binding_renamed_twice :
    (hoist
      ⟨["x", "$3$var$x"],
        [.VariableDeclaration "var" [.VariableDeclarator (.Identifier "x")
            (some (.NumericLiteral 1))],
          .VariableDeclaration "var" [.VariableDeclarator (.Identifier "$3$var$x")
            (some (.NumericLiteral 2))],
          .ExpressionStatement (.Identifier "x")]⟩ ⟨3, [], false⟩).map
        (fun result => result.1.body) =
      some [EXPORTS_TEMPLATE (.Identifier "$3$exports"),
        .VariableDeclaration "var" [.VariableDeclarator (.Identifier "$3$var$$3$var$x")
          (some (.NumericLiteral 1))],
        .VariableDeclaration "var" [.VariableDeclarator (.Identifier "$3$var$$3$var$x")
          (some (.NumericLiteral 2))],
        .ExpressionStatement (.Identifier "$3$var$$3$var$x")] ∧
    (Program.exit
      ⟨⟨["x", "$3$var$x"],
        [.VariableDeclaration "var" [.VariableDeclarator (.Identifier "x")
            (some (.NumericLiteral 1))],
          .VariableDeclaration "var" [.VariableDeclarator (.Identifier "$3$var$x")
            (some (.NumericLiteral 2))],
          .ExpressionStatement (.Identifier "x")]⟩,
        .mk .Program ["x", "$3$var$x"] (some false) none⟩ ⟨3, [], false⟩).1.scope.bindings =
      ["$3$var$$3$var$x"] ∧
    "$3$var$$3$var$x" ≠ "$3$var$x" := by
  refine ⟨by rfl, by rfl, by decide⟩

end Hoist
